import Mathlib

/-!
Shallow embedding of the elemental reaction engine of `src/main.cpp`
(Elemental Breakout).  Elements are tracked as palette indices
(`colorIndex : Int`, with `-1` = neutral/None), exactly as in the source.
Rendering-only data (raylib `Color` values, reaction message text, audio)
is omitted; timers are rationals.  The brick field is a `List Brick`
carrying grid coordinates, mirroring `std::vector<Brick>`.
-/

namespace ElementalPong

abbrev Cell : Type := Int × Int

def BrickRows : Int := 7
def BrickCols : Int := 12

def ColorIndexRed : Int := 0
def ColorIndexBlue : Int := 1
def ColorIndexGreen : Int := 2
def ColorIndexPurple : Int := 3
def ColorIndexLightBlue : Int := 4
def BrickPaletteCount : Int := 5

/-- `OverloadAoEDelay = 0.18f` in the source. -/
def OverloadAoEDelay : ℚ := 9 / 50

/-- `SurgeChainStepDelay = 0.08f` in the source. -/
def SurgeChainStepDelay : ℚ := 2 / 25

/-- `row >= 0 && row < BrickRows && col >= 0 && col < BrickCols`. -/
def inBounds (p : Cell) : Bool :=
  decide (0 ≤ p.1 ∧ p.1 < BrickRows ∧ 0 ≤ p.2 ∧ p.2 < BrickCols)

/-- The four 4-connected directions `{1,0},{-1,0},{0,1},{0,-1}` applied to a cell. -/
def neighbors (p : Cell) : List Cell :=
  [(p.1 + 1, p.2), (p.1 - 1, p.2), (p.1, p.2 + 1), (p.1, p.2 - 1)]

structure Brick where
  active : Bool
  row : Int
  col : Int
  colorIndex : Int
  hitPoints : Int
  cracked : Bool
  frozen : Bool
deriving DecidableEq

def Brick.cell (b : Brick) : Cell := (b.row, b.col)

/-- `DestroyBrick` (main.cpp lines 237-244). -/
def DestroyBrick (b : Brick) : Brick :=
  { b with active := false, hitPoints := 0, cracked := false, frozen := false, colorIndex := -1 }

/-- Per-brick effect of the freeze flood fill (main.cpp lines 178-184). -/
def freezeBrick (b : Brick) : Brick :=
  { b with colorIndex := -1, cracked := false, hitPoints := 1, frozen := true }

/-- Per-brick effect of the infuse flood fill (main.cpp lines 271-277). -/
def infuseBrick (newColorIndex : Int) (b : Brick) : Brick :=
  { b with colorIndex := newColorIndex, cracked := false,
           hitPoints := max b.hitPoints 2, frozen := false }

/-- `GetBrickAt` (main.cpp lines 140-147): first brick of the vector whose
grid coordinates match, returned together with its position in the list. -/
def brickFindAt? : List Brick → Cell → Option (Nat × Brick)
  | [], _ => none
  | b :: bs, p =>
    if b.row = p.1 ∧ b.col = p.2 then some (0, b)
    else (brickFindAt? bs p).map fun jb => (jb.1 + 1, jb.2)

def brickAt? (bricks : List Brick) (p : Cell) : Option Brick :=
  (brickFindAt? bricks p).map fun jb => jb.2

/-- All 84 grid cells; used only as a termination measure for the flood fill. -/
def allCells : List Cell :=
  (List.range 84).map fun n => (((n / 12 : Nat) : Int), ((n % 12 : Nat) : Int))

theorem length_filter_le_of_imp {α : Type} (l : List α) (P Q : α → Bool)
    (h : ∀ a, P a = true → Q a = true) :
    (l.filter P).length ≤ (l.filter Q).length := by
  induction l with
  | nil => simp
  | cons a t ih =>
    by_cases hP : P a = true
    · have hQ := h a hP
      simp only [List.filter, hP, hQ, List.length_cons]
      omega
    · have hP' : P a = false := by revert hP; cases P a <;> simp
      cases hQ : Q a <;> simp only [List.filter, hP', hQ, List.length_cons] <;> omega

theorem length_filter_lt {α : Type} (l : List α) (P Q : α → Bool) (x : α)
    (himp : ∀ a, P a = true → Q a = true) (hx : x ∈ l)
    (hPx : P x = false) (hQx : Q x = true) :
    (l.filter P).length < (l.filter Q).length := by
  induction l with
  | nil => cases hx
  | cons a t ih =>
    rcases List.mem_cons.mp hx with rfl | hxt
    · have := length_filter_le_of_imp t P Q himp
      simp only [List.filter, hPx, hQx, List.length_cons]
      omega
    · by_cases hP : P a = true
      · have hQ := himp a hP
        simp only [List.filter, hP, hQ, List.length_cons]
        exact Nat.succ_lt_succ (ih hxt)
      · have hP' : P a = false := by revert hP; cases P a <;> simp
        have := ih hxt
        cases hQ : Q a <;> simp only [List.filter, hP', hQ, List.length_cons] <;> omega

theorem mem_allCells {p : Cell} (h : inBounds p = true) : p ∈ allCells := by
  obtain ⟨r, c⟩ := p
  simp only [inBounds, BrickRows, BrickCols, decide_eq_true_eq] at h
  refine List.mem_map.mpr ⟨r.toNat * 12 + c.toNat, ?_, ?_⟩
  · simp only [List.mem_range]; omega
  · have h1 : (r.toNat * 12 + c.toNat) / 12 = r.toNat := by omega
    have h2 : (r.toNat * 12 + c.toNat) % 12 = c.toNat := by omega
    simp only [h1, h2, Prod.mk.injEq]
    constructor <;> omega

/-- The common breadth-first flood-fill loop shared by
`FreezeConnectedBricks`, `ShatterFrozenNeighbors` and `InfuseAdjacentBricks`
(main.cpp lines 161-189, 206-232, 254-282): pop a cell; skip it if
out of bounds or already visited; otherwise mark it visited, look the brick
up, and if the brick exists and satisfies the fill predicate, apply the
fill mutation, count it, and enqueue the four neighbours. -/
def floodFillAux (pred : Brick → Bool) (eff : Brick → Brick) :
    List Brick → List Cell → List Cell → Nat → List Brick × Nat
  | bricks, _, [], count => (bricks, count)
  | bricks, visited, p :: rest, count =>
    if hb : inBounds p = true then
      if hv : p ∈ visited then
        floodFillAux pred eff bricks visited rest count
      else
        match brickFindAt? bricks p with
        | none => floodFillAux pred eff bricks (p :: visited) rest count
        | some jb =>
          if pred jb.2 then
            floodFillAux pred eff (bricks.set jb.1 (eff jb.2)) (p :: visited)
              (rest ++ neighbors p) (count + 1)
          else
            floodFillAux pred eff bricks (p :: visited) rest count
    else
      floodFillAux pred eff bricks visited rest count
termination_by bricks visited queue count =>
  ((allCells.filter fun q => decide (¬ q ∈ visited)).length, queue.length)
decreasing_by
  all_goals simp_wf
  all_goals
    first
    | (apply Prod.Lex.right
       omega)
    | (apply Prod.Lex.left
       apply length_filter_lt _ _ _ p
       · intro a ha
         rw [Bool.and_eq_true] at ha
         exact ha.2
       · exact mem_allCells hb
       · simp
       · simp [hv])

/-- `FreezeConnectedBricks` (main.cpp lines 149-192).  Returns the updated
field together with `frozenCount`. -/
def FreezeConnectedBricks (bricks : List Brick) (startRow startCol targetColorIndex : Int) :
    List Brick × Nat :=
  if targetColorIndex < 0 then (bricks, 0)
  else
    floodFillAux (fun b => b.active && b.colorIndex == targetColorIndex) freezeBrick
      bricks [] [(startRow, startCol)] 0

/-- `ShatterFrozenNeighbors` (main.cpp lines 196-235): the queue starts at
the four neighbours of the start cell. -/
def ShatterFrozenNeighbors (bricks : List Brick) (startRow startCol : Int) :
    List Brick × Nat :=
  floodFillAux (fun b => b.active && b.frozen) DestroyBrick
    bricks [] (neighbors (startRow, startCol)) 0

/-- `InfuseAdjacentBricks` (main.cpp lines 246-285).  The raylib `Color`
argument is rendering-only and omitted. -/
def InfuseAdjacentBricks (bricks : List Brick) (startRow startCol newColorIndex : Int) :
    List Brick × Nat :=
  floodFillAux (fun b => b.active && b.colorIndex == ColorIndexGreen) (infuseBrick newColorIndex)
    bricks [] [(startRow, startCol)] 0

/-- `ApplyOverloadedAoE` (main.cpp lines 450-464): destroy every active brick
within Chebyshev distance 1 of the centre cell, counting removals. -/
def ApplyOverloadedAoE : List Brick → Int → Int → List Brick × Nat
  | [], _, _ => ([], 0)
  | b :: bs, centerRow, centerCol =>
    let rest := ApplyOverloadedAoE bs centerRow centerCol
    if b.active = true ∧ (b.row - centerRow).natAbs ≤ 1 ∧ (b.col - centerCol).natAbs ≤ 1 then
      (DestroyBrick b :: rest.1, rest.2 + 1)
    else
      (b :: rest.1, rest.2)

/-- `CountActiveBricks` (main.cpp lines 466-474). -/
def CountActiveBricks (bricks : List Brick) : Nat :=
  (bricks.filter fun b => b.active).length

inductive ReactionKind where
  | OverloadAoE : ReactionKind
  | SurgeChain : ReactionKind
deriving DecidableEq

structure ReactionEvent where
  row : Int
  col : Int
  timer : ℚ
  kind : ReactionKind
deriving DecidableEq

/-- One diagonal ray of `ScheduleSurgeChain` (main.cpp lines 326-343): walk
from the given cell in direction `(dR, dC)` while in bounds, pushing a
`SurgeChain` event for every cell that holds an active brick, with
`timer = SurgeChainStepDelay * distance`.  The source's `while` loop runs at
most 7 iterations (the row coordinate changes by ±1 each step and there are
only 7 in-bounds rows), so a fuel of 7 reproduces it exactly. -/
def surgeRay (bricks : List Brick) (dR dC : Int) : Int → Int → Nat → Nat → List ReactionEvent
  | _, _, _, 0 => []
  | row, col, distance, fuel + 1 =>
    if inBounds (row, col) = true then
      (match brickAt? bricks (row, col) with
       | some b =>
         if b.active = true then
           [ReactionEvent.mk row col (SurgeChainStepDelay * distance) ReactionKind.SurgeChain]
         else []
       | none => []) ++
      surgeRay bricks dR dC (row + dR) (col + dC) (distance + 1) fuel
    else []

/-- The events generated by `ScheduleSurgeChain` (main.cpp lines 323-345),
in source order over the direction table `{1,1},{-1,-1},{1,-1},{-1,1}`. -/
def SurgeEvents (bricks : List Brick) (startRow startCol : Int) : List ReactionEvent :=
  surgeRay bricks 1 1 (startRow + 1) (startCol + 1) 1 7 ++
  surgeRay bricks (-1) (-1) (startRow - 1) (startCol - 1) 1 7 ++
  surgeRay bricks 1 (-1) (startRow + 1) (startCol - 1) 1 7 ++
  surgeRay bricks (-1) 1 (startRow - 1) (startCol + 1) 1 7

/-- `ScheduleSurgeChain` appends its events to the pending list. -/
def ScheduleSurgeChain (events : List ReactionEvent) (bricks : List Brick)
    (startRow startCol : Int) : List ReactionEvent :=
  events ++ SurgeEvents bricks startRow startCol

/-- The timer decrement pass of `ResolveReactionEvents` (main.cpp lines 478-480). -/
def tickTimers (dt : ℚ) (events : List ReactionEvent) : List ReactionEvent :=
  events.map fun e => { e with timer := e.timer - dt }

/-- Effect of one expired event (main.cpp lines 485-493). -/
def applyEvent (bricks : List Brick) (e : ReactionEvent) : List Brick × Nat :=
  match e.kind with
  | ReactionKind.OverloadAoE => ApplyOverloadedAoE bricks e.row e.col
  | ReactionKind.SurgeChain =>
    match brickFindAt? bricks (e.row, e.col) with
    | some jb =>
      if jb.2.active = true then (bricks.set jb.1 (DestroyBrick jb.2), 1) else (bricks, 0)
    | none => (bricks, 0)

/-- The erase-expired scan of `ResolveReactionEvents` (main.cpp lines 482-498):
expired events are applied in list order against the evolving brick state and
removed; unexpired events stay queued. -/
def resolveLoop : List ReactionEvent → List Brick → Nat → List ReactionEvent × List Brick × Nat
  | [], bricks, removed => ([], bricks, removed)
  | e :: rest, bricks, removed =>
    if e.timer ≤ 0 then
      let ap := applyEvent bricks e
      resolveLoop rest ap.1 (removed + ap.2)
    else
      let tail := resolveLoop rest bricks removed
      (e :: tail.1, tail.2.1, tail.2.2)

/-- `ResolveReactionEvents` (main.cpp lines 476-500): returns the remaining
pending events, the updated field, and the removed-brick count (added to the
score by the main loop). -/
def ResolveReactionEvents (dt : ℚ) (events : List ReactionEvent) (bricks : List Brick) :
    List ReactionEvent × List Brick × Nat :=
  resolveLoop (tickTimers dt events) bricks 0

/-- Wave-clear handling of the main loop (main.cpp lines 1012-1022 and
1038-1050): when no active brick remains, the field is regenerated by
`CreateBricks` (randomized; passed in here as `newField`) and
`reactionEvents.clear()` discards every pending deferred event.  The ball
reset and speed increase are not modelled (not element-rule state). -/
def waveClearStep (bricks newField : List Brick) (events : List ReactionEvent) :
    List Brick × List ReactionEvent :=
  if CountActiveBricks bricks = 0 then (newField, []) else (bricks, events)

structure Ball where
  colorIndex : Int
  overloaded : Bool
  superconduct : Bool
  frozen : Bool
  freezeReady : Bool
  freezeTimer : ℚ
  velocity : ℚ × ℚ
  storedVelocity : ℚ × ℚ
deriving DecidableEq

/-- Element-and-flag part of `HandleBallPaddleCollision` (main.cpp lines
590-617).  The bounce steering (clamped paddle offset, `Normalize`, `Scale`)
involves a real square root and is passed in as the already-computed bounce
velocity `newVel`; the trigger comparisons and assignments below are a
line-by-line translation. -/
def HandleBallPaddleFlags (ball : Ball) (paddleColorIndex : Int) (newVel : ℚ × ℚ) : Ball :=
  let overloadedTrigger :=
    (ball.colorIndex = ColorIndexPurple ∧ paddleColorIndex = ColorIndexRed) ∨
    (ball.colorIndex = ColorIndexRed ∧ paddleColorIndex = ColorIndexPurple)
  let superconductTrigger :=
    (ball.colorIndex = ColorIndexPurple ∧ paddleColorIndex = ColorIndexLightBlue) ∨
    (ball.colorIndex = ColorIndexLightBlue ∧ paddleColorIndex = ColorIndexPurple)
  let freezeTrigger :=
    (ball.colorIndex = ColorIndexBlue ∧ paddleColorIndex = ColorIndexLightBlue) ∨
    (ball.colorIndex = ColorIndexLightBlue ∧ paddleColorIndex = ColorIndexBlue)
  let ball1 :=
    if 0 ≤ paddleColorIndex ∧ paddleColorIndex < BrickPaletteCount then
      { ball with colorIndex := paddleColorIndex, velocity := newVel }
    else
      { ball with colorIndex := -1, velocity := newVel }
  let ball2 := { ball1 with overloaded := decide overloadedTrigger,
                            superconduct := decide superconductTrigger }
  if freezeTrigger then
    { ball2 with freezeReady := true, frozen := true, freezeTimer := 2,
                 storedVelocity := ball2.velocity, velocity := (0, 0) }
  else
    { ball2 with freezeReady := false, frozen := false, freezeTimer := 0,
                 storedVelocity := (0, 0) }

structure RuleChainOut where
  bricks : List Brick
  instantExtra : Bool
  liquefyTriggered : Bool
  infuseTriggered : Bool
  surgeTriggered : Bool
deriving DecidableEq

/-- The `if`/`else if` reaction chain of `HandleBallBrickCollision`
(main.cpp lines 721-744): Vaporize, Liquefy, Surge, Infuse, in that order.
`instantExtra` records the `instantBreak = true` assignments made inside the
chain (Vaporize and Surge); `vaporizeTriggered` is omitted because the source
never reads it (its only use, lines 813-815, is an empty block). -/
def ruleChain (ballCI brickCI : Int) (bricks1 : List Brick) (r c : Int) : RuleChainOut :=
  if ballCI = ColorIndexBlue ∧ brickCI = ColorIndexRed then
    ⟨bricks1, true, false, false, false⟩
  else if ballCI = ColorIndexLightBlue ∧ brickCI = ColorIndexRed then
    ⟨bricks1, false, true, false, false⟩
  else if (ballCI = ColorIndexPurple ∧ brickCI = ColorIndexBlue) ∨
          (ballCI = ColorIndexBlue ∧ brickCI = ColorIndexPurple) then
    ⟨bricks1, true, false, false, true⟩
  else if ¬ ballCI = ColorIndexGreen ∧ brickCI = ColorIndexGreen then
    let res := InfuseAdjacentBricks bricks1 r c ballCI
    ⟨res.1, false, false, decide (0 < res.2), false⟩
  else
    ⟨bricks1, false, false, false, false⟩

/-- Freeze phase of a brick contact (main.cpp lines 638-648): a `freezeReady`
ball triggers the freeze flood fill when the struck brick has an element, and
`freezeReady` is cleared in every case. -/
def freezePhase (ball : Ball) (bricks : List Brick) (brick0 : Brick) : Ball × List Brick :=
  if ball.freezeReady = true then
    ({ ball with freezeReady := false },
     if brick0.colorIndex = -1 then bricks
     else (FreezeConnectedBricks bricks brick0.row brick0.col brick0.colorIndex).1)
  else (ball, bricks)

/-- Frozen-brick handling (main.cpp lines 746-760): a red ball melts the
struck brick back to a neutral 1-hit brick (the source also sets
`meltTriggered` here but never reads it afterwards); any other ball marks the
brick for instant break plus a shatter chain. -/
def frozenPhase (ballCI : Int) (bricks2 : List Brick) (i : Nat) (brick2 : Brick) :
    List Brick × Bool :=
  if brick2.frozen = true then
    if ballCI = ColorIndexRed then
      (bricks2.set i
        { brick2 with frozen := false, colorIndex := -1, hitPoints := 1, cracked := false },
       false)
    else (bricks2, true)
  else (bricks2, false)

/-- Destruction chain of a brick contact (main.cpp lines 762-784):
instant break, else liquefy conversion, else infuse recolor of the struck
brick, else the default hit-point decrement.  Returns the updated field and
whether the struck brick was destroyed by this contact. -/
def destructionPhase (instantBreak liquefy infuse : Bool) (ballCI : Int)
    (bricks3 : List Brick) (i : Nat) (brick3 : Brick) : List Brick × Bool :=
  if instantBreak = true then (bricks3.set i (DestroyBrick brick3), true)
  else if liquefy = true then
    (bricks3.set i
      { brick3 with colorIndex := ColorIndexBlue, cracked := false,
                    hitPoints := max brick3.hitPoints 2 },
     false)
  else if infuse = true then (bricks3.set i { brick3 with colorIndex := ballCI }, false)
  else if brick3.hitPoints - 1 ≤ 0 then
    (bricks3.set i (DestroyBrick { brick3 with hitPoints := brick3.hitPoints - 1 }), true)
  else (bricks3.set i { brick3 with hitPoints := brick3.hitPoints - 1, cracked := true }, false)

structure ContactResult where
  ball : Ball
  bricks : List Brick
  events : List ReactionEvent
  bricksBroken : Nat
deriving DecidableEq

/-- Deferred-event pushes, flag clearing, and post-destruction follow-ups of
a brick contact (main.cpp lines 786-819): Swirl and Overload each append an
`OverloadAoE` event on the struck cell, Overload clears the flag, and a
destroyed brick counts 1 plus any shatter-chain victims, with a Surge
scheduling its diagonal rays against the post-destruction field. -/
def eventPhase (triggeredSwirl overloadTriggered surgeTriggered shatter : Bool)
    (ball1 : Ball) (bricks4 : List Brick) (destroyed : Bool) (r c : Int)
    (events : List ReactionEvent) : ContactResult :=
  let events1 :=
    if triggeredSwirl = true then
      events ++ [ReactionEvent.mk r c OverloadAoEDelay ReactionKind.OverloadAoE]
    else events
  let events2 :=
    if overloadTriggered = true then
      events1 ++ [ReactionEvent.mk r c OverloadAoEDelay ReactionKind.OverloadAoE]
    else events1
  let ball2 := if overloadTriggered = true then { ball1 with overloaded := false } else ball1
  if destroyed = true then
    let sh := if shatter = true then ShatterFrozenNeighbors bricks4 r c else (bricks4, 0)
    let events3 :=
      if surgeTriggered = true then ScheduleSurgeChain events2 sh.1 r c else events2
    ⟨ball2, sh.1, events3, 1 + sh.2⟩
  else ⟨ball2, bricks4, events2, 0⟩

/-- The per-brick reaction body of `HandleBallBrickCollision` (main.cpp lines
630-822), for the single struck brick `bricks[i]` (the loop resolves at most
one brick per tick and `break`s; which brick is struck is decided by the
circle-rectangle test, abstracted here into the index `i`).  The bounce-axis
resolution (lines 650-710) only changes ball position/velocity and is
omitted; `superconduct` merely suppresses it.  Reaction messages and sounds
are rendering/audio-only and omitted. -/
def HandleBrickContact (ball : Ball) (bricks : List Brick) (i : Nat)
    (events : List ReactionEvent) : ContactResult :=
  match bricks[i]? with
  | none => ContactResult.mk ball bricks events 0
  | some brick0 =>
    if brick0.active = false then ContactResult.mk ball bricks events 0
    else
      let fz := freezePhase ball bricks brick0
      let brick1 := (fz.2[i]?).getD brick0
      let triggeredSwirl :=
        decide (fz.1.colorIndex = ColorIndexGreen ∧ ¬ brick1.colorIndex = ColorIndexGreen ∧
          ¬ brick1.colorIndex = -1)
      let co := ruleChain fz.1.colorIndex brick1.colorIndex fz.2 brick0.row brick0.col
      let brick2 := (co.bricks[i]?).getD brick1
      let fr := frozenPhase fz.1.colorIndex co.bricks i brick2
      let instantBreak := triggeredSwirl || fz.1.overloaded || co.instantExtra || fr.2
      let brick3 := (fr.1[i]?).getD brick2
      let dest := destructionPhase instantBreak co.liquefyTriggered co.infuseTriggered
        fz.1.colorIndex fr.1 i brick3
      eventPhase triggeredSwirl fz.1.overloaded co.surgeTriggered fr.2 fz.1 dest.1 dest.2
        brick0.row brick0.col events

/-! ### Basic lemmas about the grid lookup and the flood fill -/

theorem floodFillAux_nil (pred : Brick → Bool) (eff : Brick → Brick)
    (bricks : List Brick) (visited : List Cell) (count : Nat) :
    floodFillAux pred eff bricks visited [] count = (bricks, count) := by
  rw [floodFillAux]

theorem floodFillAux_oob (pred : Brick → Bool) (eff : Brick → Brick)
    (bricks : List Brick) (visited : List Cell) {p : Cell} (rest : List Cell) (count : Nat)
    (hb : ¬ inBounds p = true) :
    floodFillAux pred eff bricks visited (p :: rest) count
      = floodFillAux pred eff bricks visited rest count := by
  rw [floodFillAux, dif_neg hb]

theorem floodFillAux_visited (pred : Brick → Bool) (eff : Brick → Brick)
    (bricks : List Brick) {visited : List Cell} {p : Cell} (rest : List Cell) (count : Nat)
    (hb : inBounds p = true) (hv : p ∈ visited) :
    floodFillAux pred eff bricks visited (p :: rest) count
      = floodFillAux pred eff bricks visited rest count := by
  rw [floodFillAux, dif_pos hb, dif_pos hv]

theorem floodFillAux_nobrick (pred : Brick → Bool) (eff : Brick → Brick)
    {bricks : List Brick} {visited : List Cell} {p : Cell} (rest : List Cell) (count : Nat)
    (hb : inBounds p = true) (hv : ¬ p ∈ visited) (hfind : brickFindAt? bricks p = none) :
    floodFillAux pred eff bricks visited (p :: rest) count
      = floodFillAux pred eff bricks (p :: visited) rest count := by
  rw [floodFillAux, dif_pos hb, dif_neg hv, hfind]

theorem floodFillAux_hit {pred : Brick → Bool} (eff : Brick → Brick)
    {bricks : List Brick} {visited : List Cell} {p : Cell} (rest : List Cell) (count : Nat)
    {jb : Nat × Brick}
    (hb : inBounds p = true) (hv : ¬ p ∈ visited) (hfind : brickFindAt? bricks p = some jb)
    (hpred : pred jb.2 = true) :
    floodFillAux pred eff bricks visited (p :: rest) count
      = floodFillAux pred eff (bricks.set jb.1 (eff jb.2)) (p :: visited)
          (rest ++ neighbors p) (count + 1) := by
  rw [floodFillAux, dif_pos hb, dif_neg hv, hfind]
  exact if_pos hpred

theorem floodFillAux_nohit {pred : Brick → Bool} (eff : Brick → Brick)
    {bricks : List Brick} {visited : List Cell} {p : Cell} (rest : List Cell) (count : Nat)
    {jb : Nat × Brick}
    (hb : inBounds p = true) (hv : ¬ p ∈ visited) (hfind : brickFindAt? bricks p = some jb)
    (hpred : ¬ pred jb.2 = true) :
    floodFillAux pred eff bricks visited (p :: rest) count
      = floodFillAux pred eff bricks (p :: visited) rest count := by
  rw [floodFillAux, dif_pos hb, dif_neg hv, hfind]
  exact if_neg hpred


/-- The brick field never holds two bricks on the same grid cell (true of
every field `CreateBricks` generates). -/
def CellsNodup (bricks : List Brick) : Prop := (bricks.map Brick.cell).Nodup

theorem brickFindAt?_some {bricks : List Brick} {p : Cell} {jb : Nat × Brick}
    (h : brickFindAt? bricks p = some jb) :
    bricks[jb.1]? = some jb.2 ∧ jb.2.row = p.1 ∧ jb.2.col = p.2 := by
  induction bricks generalizing jb with
  | nil => simp [brickFindAt?] at h
  | cons b bs ih =>
    by_cases hc : b.row = p.1 ∧ b.col = p.2
    · simp only [brickFindAt?, if_pos hc, Option.some.injEq] at h
      subst h
      simpa using hc
    · simp only [brickFindAt?, if_neg hc, Option.map_eq_some'] at h
      obtain ⟨jb', hjb', rfl⟩ := h
      have := ih hjb'
      simpa using this

theorem brickFindAt?_none {bricks : List Brick} {p : Cell}
    (h : brickFindAt? bricks p = none) :
    ∀ b ∈ bricks, ¬ (b.row = p.1 ∧ b.col = p.2) := by
  induction bricks with
  | nil => simp
  | cons b bs ih =>
    by_cases hc : b.row = p.1 ∧ b.col = p.2
    · simp [brickFindAt?, hc] at h
    · simp only [brickFindAt?, if_neg hc, Option.map_eq_none'] at h
      intro b' hb'
      rcases List.mem_cons.mp hb' with rfl | hmem
      · exact hc
      · exact ih h b' hmem

theorem brickFindAt?_isSome {bricks : List Brick} {p : Cell} {b : Brick}
    (hb : b ∈ bricks) (hc : b.row = p.1 ∧ b.col = p.2) :
    ∃ jb, brickFindAt? bricks p = some jb := by
  cases h : brickFindAt? bricks p with
  | some jb => exact ⟨jb, rfl⟩
  | none => exact absurd hc (brickFindAt?_none h b hb)

theorem fill_length (pred : Brick → Bool) (eff : Brick → Brick)
    (bricks : List Brick) (visited queue : List Cell) (count : Nat) :
    (floodFillAux pred eff bricks visited queue count).1.length = bricks.length := by
  induction bricks, visited, queue, count using floodFillAux.induct pred eff with
  | case1 bricks visited count => rw [floodFillAux_nil]
  | case2 bricks visited p rest count hb hv ih =>
    rw [floodFillAux_visited _ _ _ _ _ hb hv]; exact ih
  | case3 bricks visited p rest count hb hv hfind ih =>
    rw [floodFillAux_nobrick _ _ _ _ hb hv hfind]; exact ih
  | case4 bricks visited p rest count hb hv jb hfind hpred ih =>
    rw [floodFillAux_hit _ _ _ hb hv hfind hpred]
    rw [ih, List.length_set]
  | case5 bricks visited p rest count hb hv jb hfind hpred ih =>
    rw [floodFillAux_nohit _ _ _ hb hv hfind hpred]; exact ih
  | case6 bricks visited p rest count hb ih =>
    rw [floodFillAux_oob _ _ _ _ _ _ hb]; exact ih

/-- Generic preservation through the flood fill of a per-brick property that
the fill mutation maintains on bricks satisfying the fill predicate. -/
theorem fill_forall_preserved (Inv : Brick → Prop) (pred : Brick → Bool) (eff : Brick → Brick)
    (heff : ∀ b, pred b = true → Inv (eff b))
    (bricks : List Brick) (visited queue : List Cell) (count : Nat)
    (h : ∀ b ∈ bricks, Inv b) :
    ∀ b ∈ (floodFillAux pred eff bricks visited queue count).1, Inv b := by
  induction bricks, visited, queue, count using floodFillAux.induct pred eff with
  | case1 bricks visited count => rw [floodFillAux_nil]; exact h
  | case2 bricks visited p rest count hb hv ih =>
    rw [floodFillAux_visited _ _ _ _ _ hb hv]; exact ih h
  | case3 bricks visited p rest count hb hv hfind ih =>
    rw [floodFillAux_nobrick _ _ _ _ hb hv hfind]; exact ih h
  | case4 bricks visited p rest count hb hv jb hfind hpred ih =>
    rw [floodFillAux_hit _ _ _ hb hv hfind hpred]
    refine ih ?_
    intro b hbmem
    rcases List.mem_or_eq_of_mem_set hbmem with hmem | rfl
    · exact h b hmem
    · exact heff jb.2 hpred
  | case5 bricks visited p rest count hb hv jb hfind hpred ih =>
    rw [floodFillAux_nohit _ _ _ hb hv hfind hpred]; exact ih h
  | case6 bricks visited p rest count hb ih =>
    rw [floodFillAux_oob _ _ _ _ _ _ hb]; exact ih h

/-- A per-brick field on which the fill mutation is the identity is preserved
pointwise (at every list position) by the flood fill. -/
theorem fill_field_preserved {α : Type} (f : Brick → α) (pred : Brick → Bool)
    (eff : Brick → Brick) (heff : ∀ b, f (eff b) = f b)
    (bricks : List Brick) (visited queue : List Cell) (count : Nat) :
    ∀ i : Nat, ((floodFillAux pred eff bricks visited queue count).1[i]?).map f
      = (bricks[i]?).map f := by
  induction bricks, visited, queue, count using floodFillAux.induct pred eff with
  | case1 bricks visited count => intro i; rw [floodFillAux_nil]
  | case2 bricks visited p rest count hb hv ih =>
    rw [floodFillAux_visited _ _ _ _ _ hb hv]; exact ih
  | case3 bricks visited p rest count hb hv hfind ih =>
    rw [floodFillAux_nobrick _ _ _ _ hb hv hfind]; exact ih
  | case4 bricks visited p rest count hb hv jb hfind hpred ih =>
    rw [floodFillAux_hit _ _ _ hb hv hfind hpred]
    intro i
    rw [ih i, List.getElem?_set]
    have hjb := (brickFindAt?_some hfind).1
    by_cases hij : jb.1 = i
    · subst hij
      have hlt : jb.1 < bricks.length := by
        by_contra hge
        rw [List.getElem?_eq_none (by omega)] at hjb
        cases hjb
      rw [if_pos rfl, if_pos hlt, hjb, Option.map_some', Option.map_some', heff]
    · rw [if_neg hij]
  | case5 bricks visited p rest count hb hv jb hfind hpred ih =>
    rw [floodFillAux_nohit _ _ _ hb hv hfind hpred]; exact ih
  | case6 bricks visited p rest count hb ih =>
    rw [floodFillAux_oob _ _ _ _ _ _ hb]; exact ih

/-! ### Exact characterization of the flood fill -/

/-- Whether the brick found at cell `p` satisfies the fill predicate. -/
def cellMatch (pred : Brick → Bool) (bricks : List Brick) (p : Cell) : Bool :=
  match brickAt? bricks p with
  | some b => pred b
  | none => false

/-- The cells the breadth-first fill can reach: the start cells, plus the
four neighbours of any reachable in-bounds cell whose brick matches the fill
predicate.  The traversal thus never crosses an out-of-bounds cell, an empty
cell, or a brick failing the predicate. -/
inductive Reach (m : Cell → Bool) (starts : List Cell) : Cell → Prop where
  | base {p : Cell} : p ∈ starts → Reach m starts p
  | step {p q : Cell} : Reach m starts p → inBounds p = true → m p = true →
      q ∈ neighbors p → Reach m starts q

theorem brickFindAt?_self {orig : List Brick} (hnd : CellsNodup orig) :
    ∀ {i : Nat} {b : Brick}, orig[i]? = some b → brickFindAt? orig b.cell = some (i, b) := by
  induction orig with
  | nil => intro i b h; simp at h
  | cons a t ih =>
    intro i b h
    have hnd' : (a.cell :: t.map Brick.cell).Nodup := hnd
    have hcons := List.nodup_cons.mp hnd'
    cases i with
    | zero =>
      simp only [List.getElem?_cons_zero, Option.some.injEq] at h
      subst h
      simp [brickFindAt?, Brick.cell]
    | succ n =>
      rw [List.getElem?_cons_succ] at h
      have hmem : b ∈ t := List.getElem?_mem h
      have hbne : ¬ (a.row = b.cell.1 ∧ a.col = b.cell.2) := by
        intro hc
        apply hcons.1
        have hcc : a.cell = b.cell := by
          simp only [Brick.cell] at hc ⊢
          exact Prod.ext hc.1 hc.2
        rw [hcc]
        exact List.mem_map_of_mem _ hmem
      have ih' := ih hcons.2 h
      simp [brickFindAt?, hbne, ih']

theorem brickFindAt?_fst_congr {l₁ l₂ : List Brick}
    (hcells : ∀ i : Nat, (l₁[i]?).map Brick.cell = (l₂[i]?).map Brick.cell) (p : Cell) :
    (brickFindAt? l₁ p).map Prod.fst = (brickFindAt? l₂ p).map Prod.fst := by
  induction l₁ generalizing l₂ with
  | nil =>
    cases l₂ with
    | nil => rfl
    | cons b t₂ => have h0 := hcells 0; simp at h0
  | cons a t ih =>
    cases l₂ with
    | nil => have h0 := hcells 0; simp at h0
    | cons b t₂ =>
      have h0 := hcells 0
      simp only [List.getElem?_cons_zero, Option.map_some', Option.some.injEq] at h0
      have hrc : a.row = b.row ∧ a.col = b.col := by
        simp only [Brick.cell, Prod.mk.injEq] at h0
        exact h0
      have htl : ∀ i : Nat, (t[i]?).map Brick.cell = (t₂[i]?).map Brick.cell := by
        intro i
        have := hcells (i + 1)
        simpa using this
      by_cases hc : a.row = p.1 ∧ a.col = p.2
      · have hc₂ : b.row = p.1 ∧ b.col = p.2 := ⟨hrc.1 ▸ hc.1, hrc.2 ▸ hc.2⟩
        simp [brickFindAt?, hc, hc₂]
      · have hc₂ : ¬ (b.row = p.1 ∧ b.col = p.2) := by
          intro hcc
          exact hc ⟨hrc.1 ▸ hcc.1, hrc.2 ▸ hcc.2⟩
        simp only [brickFindAt?, if_neg hc, if_neg hc₂]
        have hih := ih htl
        cases hfa : brickFindAt? t p with
        | none =>
          rw [hfa] at hih
          cases hfb : brickFindAt? t₂ p with
          | none => simp
          | some jb => rw [hfb] at hih; simp at hih
        | some jb =>
          rw [hfa] at hih
          cases hfb : brickFindAt? t₂ p with
          | none => rw [hfb] at hih; simp at hih
          | some jb₂ =>
            rw [hfb] at hih
            simp only [Option.map_some', Option.some.injEq] at hih
            simp [hih]

/-- Loop invariant of `floodFillAux` relative to the original field `orig`
and the initial queue `starts`. -/
structure FillInv (pred : Brick → Bool) (eff : Brick → Brick) (orig : List Brick)
    (starts : List Cell) (bricks : List Brick) (visited queue : List Cell) : Prop where
  len : bricks.length = orig.length
  mark : ∀ (i : Nat) (b : Brick), orig[i]? = some b → b.cell ∈ visited → pred b = true →
    bricks[i]? = some (eff b)
  keep : ∀ (i : Nat) (b : Brick), orig[i]? = some b → ¬ (b.cell ∈ visited ∧ pred b = true) →
    bricks[i]? = some b
  vbound : ∀ p ∈ visited, inBounds p = true
  vreach : ∀ p ∈ visited, cellMatch pred orig p = true → Reach (cellMatch pred orig) starts p
  qreach : ∀ q ∈ queue, Reach (cellMatch pred orig) starts q
  frontier : ∀ p ∈ visited, cellMatch pred orig p = true →
    ∀ q ∈ neighbors p, inBounds q = true → q ∈ visited ∨ q ∈ queue
  started : ∀ p ∈ starts, inBounds p = true → p ∈ visited ∨ p ∈ queue

/-- Postcondition of the flood fill: each brick of the original field is
rewritten by the fill mutation exactly when its cell is reachable, in bounds,
and its brick satisfies the predicate; every other brick is untouched. -/
def FillPost (pred : Brick → Bool) (eff : Brick → Brick) (orig : List Brick)
    (starts : List Cell) (out : List Brick) : Prop :=
  ∀ (i : Nat) (b : Brick), orig[i]? = some b →
    ((Reach (cellMatch pred orig) starts b.cell ∧ inBounds b.cell = true ∧ pred b = true) →
        out[i]? = some (eff b)) ∧
    (¬ (Reach (cellMatch pred orig) starts b.cell ∧ inBounds b.cell = true ∧ pred b = true) →
        out[i]? = some b)

theorem FillInv.cells {pred : Brick → Bool} {eff : Brick → Brick} {orig : List Brick}
    {starts : List Cell} {bricks : List Brick} {visited queue : List Cell}
    (heffrow : ∀ b, (eff b).row = b.row) (heffcol : ∀ b, (eff b).col = b.col)
    (inv : FillInv pred eff orig starts bricks visited queue) :
    ∀ i : Nat, (bricks[i]?).map Brick.cell = (orig[i]?).map Brick.cell := by
  intro i
  by_cases hi : i < orig.length
  · have hib : orig[i]? = some orig[i] := List.getElem?_eq_getElem hi
    by_cases hcond : (orig[i]).cell ∈ visited ∧ pred orig[i] = true
    · rw [inv.mark i _ hib hcond.1 hcond.2, hib]
      simp [Brick.cell, heffrow, heffcol]
    · rw [inv.keep i _ hib hcond, hib]
  · rw [List.getElem?_eq_none (by rw [inv.len]; omega), List.getElem?_eq_none (by omega)]

theorem FillInv.find_some {pred : Brick → Bool} {eff : Brick → Brick} {orig : List Brick}
    {starts : List Cell} {bricks : List Brick} {visited queue : List Cell}
    (heffrow : ∀ b, (eff b).row = b.row) (heffcol : ∀ b, (eff b).col = b.col)
    (inv : FillInv pred eff orig starts bricks visited queue)
    {p : Cell} {jb : Nat × Brick}
    (hfind : brickFindAt? bricks p = some jb) (hfresh : ¬ p ∈ visited) :
    brickFindAt? orig p = some jb ∧ orig[jb.1]? = some jb.2 ∧
      jb.2.row = p.1 ∧ jb.2.col = p.2 := by
  have hcongr := brickFindAt?_fst_congr (inv.cells heffrow heffcol) p
  rw [hfind] at hcongr
  cases hfo : brickFindAt? orig p with
  | none => rw [hfo] at hcongr; simp at hcongr
  | some jb₀ =>
    rw [hfo] at hcongr
    simp only [Option.map_some', Option.some.injEq] at hcongr
    obtain ⟨horig, hrow, hcol⟩ := brickFindAt?_some hfo
    obtain ⟨hcur, hrow2, hcol2⟩ := brickFindAt?_some hfind
    have hcell : jb₀.2.cell = p := by
      simp only [Brick.cell]
      exact Prod.ext hrow hcol
    have hkeep : bricks[jb₀.1]? = some jb₀.2 :=
      inv.keep jb₀.1 jb₀.2 horig (fun hcc => hfresh (hcell ▸ hcc.1))
    have hcur2 : bricks[jb₀.1]? = some jb.2 := by rw [← hcongr]; exact hcur
    have hbeq : jb.2 = jb₀.2 := by
      rw [hkeep] at hcur2
      exact (Option.some_inj.mp hcur2).symm
    have hjb : jb = jb₀ := Prod.ext hcongr hbeq
    refine ⟨?_, ?_, ?_, ?_⟩
    · exact congrArg some hjb.symm
    · rw [hjb]; exact horig
    · rw [hjb]; exact hrow
    · rw [hjb]; exact hcol

theorem cellMatch_self {orig : List Brick} (hnd : CellsNodup orig) {i : Nat} {b : Brick}
    (hib : orig[i]? = some b) (pred : Brick → Bool) :
    cellMatch pred orig b.cell = pred b := by
  simp [cellMatch, brickAt?, brickFindAt?_self hnd hib]

theorem find_unique {orig : List Brick} (hnd : CellsNodup orig) {i : Nat} {b : Brick}
    {p : Cell} {jb : Nat × Brick}
    (hib : orig[i]? = some b) (hcp : b.cell = p) (hfo : brickFindAt? orig p = some jb) :
    i = jb.1 ∧ b = jb.2 := by
  have hself := brickFindAt?_self hnd hib
  rw [hcp, hfo] at hself
  have h2 : jb = (i, b) := Option.some_inj.mp hself
  exact ⟨(congrArg Prod.fst h2).symm, (congrArg Prod.snd h2).symm⟩

theorem FillInv.find_none {pred : Brick → Bool} {eff : Brick → Brick} {orig : List Brick}
    {starts : List Cell} {bricks : List Brick} {visited queue : List Cell}
    (heffrow : ∀ b, (eff b).row = b.row) (heffcol : ∀ b, (eff b).col = b.col)
    (inv : FillInv pred eff orig starts bricks visited queue)
    {p : Cell} (hfind : brickFindAt? bricks p = none) :
    brickFindAt? orig p = none := by
  have hcongr := brickFindAt?_fst_congr (inv.cells heffrow heffcol) p
  rw [hfind] at hcongr
  cases hfo : brickFindAt? orig p with
  | none => rfl
  | some jb₀ => rw [hfo] at hcongr; simp at hcongr

/-- Running the flood-fill loop from any state satisfying the invariant
yields the exact reachability characterization. -/
theorem fill_inv_post (pred : Brick → Bool) (eff : Brick → Brick)
    (heffrow : ∀ b, (eff b).row = b.row) (heffcol : ∀ b, (eff b).col = b.col)
    (orig : List Brick) (hnd : CellsNodup orig) (starts : List Cell) :
    ∀ bricks visited queue count,
      FillInv pred eff orig starts bricks visited queue →
      FillPost pred eff orig starts (floodFillAux pred eff bricks visited queue count).1 := by
  intro bricks visited queue count
  induction bricks, visited, queue, count using floodFillAux.induct pred eff with
  | case1 bricks visited count =>
    intro inv
    rw [floodFillAux_nil]
    intro i b hib
    have complete : ∀ q, Reach (cellMatch pred orig) starts q → inBounds q = true →
        q ∈ visited := by
      intro q hr
      induction hr with
      | base hp =>
        intro hbq
        rcases inv.started _ hp hbq with h | h
        · exact h
        · cases h
      | step hr hbp hmp hqn ih =>
        intro hbq
        rcases inv.frontier _ (ih hbp) hmp _ hqn hbq with h | h
        · exact h
        · cases h
    constructor
    · rintro ⟨hr, hbo, hp⟩
      exact inv.mark i b hib (complete _ hr hbo) hp
    · intro hnm
      refine inv.keep i b hib ?_
      rintro ⟨hv, hp⟩
      apply hnm
      have hcm : cellMatch pred orig b.cell = true := by
        rw [cellMatch_self hnd hib]
        exact hp
      exact ⟨inv.vreach _ hv hcm, inv.vbound _ hv, hp⟩
  | case2 bricks visited p rest count hb hv ih =>
    intro inv
    rw [floodFillAux_visited _ _ _ _ _ hb hv]
    apply ih
    exact { inv with
      qreach := fun q hq => inv.qreach q (List.mem_cons_of_mem _ hq)
      frontier := by
        intro v hvm hm q hqn hqb
        rcases inv.frontier v hvm hm q hqn hqb with h | h
        · exact Or.inl h
        · rcases List.mem_cons.mp h with rfl | h2
          · exact Or.inl hv
          · exact Or.inr h2
      started := by
        intro s hs hsb
        rcases inv.started s hs hsb with h | h
        · exact Or.inl h
        · rcases List.mem_cons.mp h with rfl | h2
          · exact Or.inl hv
          · exact Or.inr h2 }
  | case3 bricks visited p rest count hb hv hfind ih =>
    intro inv
    rw [floodFillAux_nobrick _ _ _ _ hb hv hfind]
    have hfo := inv.find_none heffrow heffcol hfind
    have hnocell : ∀ (i : Nat) (b : Brick), orig[i]? = some b → ¬ b.cell = p := by
      intro i b hib hcp
      have hself := brickFindAt?_self hnd hib
      rw [hcp, hfo] at hself
      cases hself
    have hcmp : cellMatch pred orig p = false := by
      simp [cellMatch, brickAt?, hfo]
    apply ih
    exact { inv with
      mark := by
        intro i b hib hviz hp
        rcases List.mem_cons.mp hviz with hcp | hvv
        · exact absurd hcp (hnocell i b hib)
        · exact inv.mark i b hib hvv hp
      keep := by
        intro i b hib hnc
        refine inv.keep i b hib ?_
        rintro ⟨hv', hp⟩
        exact hnc ⟨List.mem_cons_of_mem _ hv', hp⟩
      vbound := by
        intro q hq
        rcases List.mem_cons.mp hq with rfl | h2
        · exact hb
        · exact inv.vbound q h2
      vreach := by
        intro q hq hm
        rcases List.mem_cons.mp hq with rfl | h2
        · rw [hcmp] at hm; cases hm
        · exact inv.vreach q h2 hm
      qreach := fun q hq => inv.qreach q (List.mem_cons_of_mem _ hq)
      frontier := by
        intro v hvm hm q hqn hqb
        rcases List.mem_cons.mp hvm with rfl | hvv
        · rw [hcmp] at hm; cases hm
        · rcases inv.frontier v hvv hm q hqn hqb with h | h
          · exact Or.inl (List.mem_cons_of_mem _ h)
          · rcases List.mem_cons.mp h with rfl | h2
            · exact Or.inl (List.mem_cons_self _ _)
            · exact Or.inr h2
      started := by
        intro s hs hsb
        rcases inv.started s hs hsb with h | h
        · exact Or.inl (List.mem_cons_of_mem _ h)
        · rcases List.mem_cons.mp h with rfl | h2
          · exact Or.inl (List.mem_cons_self _ _)
          · exact Or.inr h2 }
  | case4 bricks visited p rest count hb hv jb hfind hpred ih =>
    intro inv
    rw [floodFillAux_hit _ _ _ hb hv hfind hpred]
    obtain ⟨hfo, horig, hrow, hcol⟩ := inv.find_some heffrow heffcol hfind hv
    have hcell : jb.2.cell = p := by
      simp only [Brick.cell]
      exact Prod.ext hrow hcol
    have hcm : cellMatch pred orig p = true := by
      rw [← hcell, cellMatch_self hnd horig]
      exact hpred
    have hreachp : Reach (cellMatch pred orig) starts p :=
      inv.qreach p (List.mem_cons_self _ _)
    have hjlt : jb.1 < bricks.length := by
      have := (brickFindAt?_some hfind).1
      by_contra hge
      rw [List.getElem?_eq_none (by omega)] at this
      cases this
    apply ih
    exact {
      len := by rw [List.length_set]; exact inv.len
      mark := by
        intro i b hib hviz hp
        by_cases hcp : b.cell = p
        · obtain ⟨hi, hbb⟩ := find_unique hnd hib hcp hfo
          rw [List.getElem?_set, if_pos hi.symm, if_pos hjlt, hbb]
        · have hvv : b.cell ∈ visited := by
            rcases List.mem_cons.mp hviz with h | h
            · exact absurd h hcp
            · exact h
          have hne : ¬ jb.1 = i := by
            rintro rfl
            rw [horig] at hib
            have : jb.2 = b := Option.some_inj.mp hib
            exact hcp (this ▸ hcell)
          rw [List.getElem?_set, if_neg hne]
          exact inv.mark i b hib hvv hp
      keep := by
        intro i b hib hnc
        have hne : ¬ jb.1 = i := by
          rintro rfl
          rw [horig] at hib
          have hbb : jb.2 = b := Option.some_inj.mp hib
          exact hnc ⟨by rw [← hbb, hcell]; exact List.mem_cons_self _ _, by rw [← hbb]; exact hpred⟩
        rw [List.getElem?_set, if_neg hne]
        refine inv.keep i b hib ?_
        rintro ⟨hv', hp⟩
        exact hnc ⟨List.mem_cons_of_mem _ hv', hp⟩
      vbound := by
        intro q hq
        rcases List.mem_cons.mp hq with rfl | h2
        · exact hb
        · exact inv.vbound q h2
      vreach := by
        intro q hq hm
        rcases List.mem_cons.mp hq with rfl | h2
        · exact hreachp
        · exact inv.vreach q h2 hm
      qreach := by
        intro q hq
        rcases List.mem_append.mp hq with h | h
        · exact inv.qreach q (List.mem_cons_of_mem _ h)
        · exact Reach.step hreachp hb hcm h
      frontier := by
        intro v hvm hm q hqn hqb
        rcases List.mem_cons.mp hvm with rfl | hvv
        · exact Or.inr (List.mem_append_right _ hqn)
        · rcases inv.frontier v hvv hm q hqn hqb with h | h
          · exact Or.inl (List.mem_cons_of_mem _ h)
          · rcases List.mem_cons.mp h with rfl | h2
            · exact Or.inl (List.mem_cons_self _ _)
            · exact Or.inr (List.mem_append_left _ h2)
      started := by
        intro s hs hsb
        rcases inv.started s hs hsb with h | h
        · exact Or.inl (List.mem_cons_of_mem _ h)
        · rcases List.mem_cons.mp h with rfl | h2
          · exact Or.inl (List.mem_cons_self _ _)
          · exact Or.inr (List.mem_append_left _ h2) }
  | case5 bricks visited p rest count hb hv jb hfind hpred ih =>
    intro inv
    rw [floodFillAux_nohit _ _ _ hb hv hfind hpred]
    obtain ⟨hfo, horig, hrow, hcol⟩ := inv.find_some heffrow heffcol hfind hv
    have hcell : jb.2.cell = p := by
      simp only [Brick.cell]
      exact Prod.ext hrow hcol
    have hcmp : cellMatch pred orig p = false := by
      rw [← hcell, cellMatch_self hnd horig]
      revert hpred
      cases pred jb.2 <;> simp
    apply ih
    exact { inv with
      mark := by
        intro i b hib hviz hp
        rcases List.mem_cons.mp hviz with hcp | hvv
        · obtain ⟨hi, hbb⟩ := find_unique hnd hib hcp hfo
          rw [hbb] at hp
          exact absurd hp hpred
        · exact inv.mark i b hib hvv hp
      keep := by
        intro i b hib hnc
        refine inv.keep i b hib ?_
        rintro ⟨hv', hp⟩
        exact hnc ⟨List.mem_cons_of_mem _ hv', hp⟩
      vbound := by
        intro q hq
        rcases List.mem_cons.mp hq with rfl | h2
        · exact hb
        · exact inv.vbound q h2
      vreach := by
        intro q hq hm
        rcases List.mem_cons.mp hq with rfl | h2
        · rw [hcmp] at hm; cases hm
        · exact inv.vreach q h2 hm
      qreach := fun q hq => inv.qreach q (List.mem_cons_of_mem _ hq)
      frontier := by
        intro v hvm hm q hqn hqb
        rcases List.mem_cons.mp hvm with rfl | hvv
        · rw [hcmp] at hm; cases hm
        · rcases inv.frontier v hvv hm q hqn hqb with h | h
          · exact Or.inl (List.mem_cons_of_mem _ h)
          · rcases List.mem_cons.mp h with rfl | h2
            · exact Or.inl (List.mem_cons_self _ _)
            · exact Or.inr h2
      started := by
        intro s hs hsb
        rcases inv.started s hs hsb with h | h
        · exact Or.inl (List.mem_cons_of_mem _ h)
        · rcases List.mem_cons.mp h with rfl | h2
          · exact Or.inl (List.mem_cons_self _ _)
          · exact Or.inr h2 }
  | case6 bricks visited p rest count hb ih =>
    intro inv
    rw [floodFillAux_oob _ _ _ _ _ _ hb]
    apply ih
    exact { inv with
      qreach := fun q hq => inv.qreach q (List.mem_cons_of_mem _ hq)
      frontier := by
        intro v hvm hm q hqn hqb
        rcases inv.frontier v hvm hm q hqn hqb with h | h
        · exact Or.inl h
        · rcases List.mem_cons.mp h with rfl | h2
          · exact absurd hqb hb
          · exact Or.inr h2
      started := by
        intro s hs hsb
        rcases inv.started s hs hsb with h | h
        · exact Or.inl h
        · rcases List.mem_cons.mp h with rfl | h2
          · exact absurd hsb hb
          · exact Or.inr h2 }

theorem fillInv_init (pred : Brick → Bool) (eff : Brick → Brick) (orig : List Brick)
    (starts : List Cell) : FillInv pred eff orig starts orig [] starts where
  len := rfl
  mark := by intro i b _ hv _; cases hv
  keep := by intro i b hib _; exact hib
  vbound := by intro p hp; cases hp
  vreach := by intro p hp; cases hp
  qreach := fun q hq => Reach.base hq
  frontier := by intro p hp; cases hp
  started := fun p hp _ => Or.inr hp

theorem floodFill_spec (pred : Brick → Bool) (eff : Brick → Brick)
    (heffrow : ∀ b, (eff b).row = b.row) (heffcol : ∀ b, (eff b).col = b.col)
    (orig : List Brick) (hnd : CellsNodup orig) (starts : List Cell) (count : Nat) :
    FillPost pred eff orig starts (floodFillAux pred eff orig [] starts count).1 :=
  fill_inv_post pred eff heffrow heffcol orig hnd starts orig [] starts count
    (fillInv_init pred eff orig starts)

theorem fill_count_mono (pred : Brick → Bool) (eff : Brick → Brick) :
    ∀ bricks visited queue count,
      count ≤ (floodFillAux pred eff bricks visited queue count).2 := by
  intro bricks visited queue count
  induction bricks, visited, queue, count using floodFillAux.induct pred eff with
  | case1 bricks visited count => rw [floodFillAux_nil]
  | case2 bricks visited p rest count hb hv ih =>
    rw [floodFillAux_visited _ _ _ _ _ hb hv]; exact ih
  | case3 bricks visited p rest count hb hv hfind ih =>
    rw [floodFillAux_nobrick _ _ _ _ hb hv hfind]; exact ih
  | case4 bricks visited p rest count hb hv jb hfind hpred ih =>
    rw [floodFillAux_hit _ _ _ hb hv hfind hpred]; omega
  | case5 bricks visited p rest count hb hv jb hfind hpred ih =>
    rw [floodFillAux_nohit _ _ _ hb hv hfind hpred]; exact ih
  | case6 bricks visited p rest count hb ih =>
    rw [floodFillAux_oob _ _ _ _ _ _ hb]; exact ih

theorem fill_count_pos {pred : Brick → Bool} (eff : Brick → Brick)
    (bricks : List Brick) (rest : List Cell) (count : Nat) {p : Cell} {jb : Nat × Brick}
    (hb : inBounds p = true) (hfind : brickFindAt? bricks p = some jb)
    (hpred : pred jb.2 = true) :
    0 < (floodFillAux pred eff bricks [] (p :: rest) count).2 := by
  rw [floodFillAux_hit _ _ _ hb (by simp) hfind hpred]
  have := fill_count_mono pred eff (bricks.set jb.1 (eff jb.2)) [p]
    (rest ++ neighbors p) (count + 1)
  omega

theorem FreezeConnectedBricks_post (bricks : List Brick) (hnd : CellsNodup bricks)
    (startRow startCol targetColorIndex : Int) (htarget : ¬ targetColorIndex < 0) :
    FillPost (fun b => b.active && b.colorIndex == targetColorIndex) freezeBrick bricks
      [(startRow, startCol)]
      (FreezeConnectedBricks bricks startRow startCol targetColorIndex).1 := by
  rw [FreezeConnectedBricks, if_neg htarget]
  exact floodFill_spec _ freezeBrick (fun b => rfl) (fun b => rfl) bricks hnd _ 0

theorem InfuseAdjacentBricks_post (bricks : List Brick) (hnd : CellsNodup bricks)
    (startRow startCol newColorIndex : Int) :
    FillPost (fun b => b.active && b.colorIndex == ColorIndexGreen) (infuseBrick newColorIndex)
      bricks [(startRow, startCol)]
      (InfuseAdjacentBricks bricks startRow startCol newColorIndex).1 :=
  floodFill_spec _ (infuseBrick newColorIndex) (fun b => rfl) (fun b => rfl) bricks hnd _ 0

theorem ShatterFrozenNeighbors_post (bricks : List Brick) (hnd : CellsNodup bricks)
    (startRow startCol : Int) :
    FillPost (fun b => b.active && b.frozen) DestroyBrick bricks
      (neighbors (startRow, startCol))
      (ShatterFrozenNeighbors bricks startRow startCol).1 :=
  floodFill_spec _ DestroyBrick (fun b => rfl) (fun b => rfl) bricks hnd _ 0

/-! ### Area explosions and the event scheduler -/

/-- Pointwise characterization of `ApplyOverloadedAoE`. -/
theorem ApplyOverloadedAoE_spec (bricks : List Brick) (centerRow centerCol : Int) :
    (ApplyOverloadedAoE bricks centerRow centerCol).1.length = bricks.length ∧
    ∀ (i : Nat) (b : Brick), bricks[i]? = some b →
      (ApplyOverloadedAoE bricks centerRow centerCol).1[i]?
        = some (if b.active = true ∧ (b.row - centerRow).natAbs ≤ 1 ∧
                    (b.col - centerCol).natAbs ≤ 1
                then DestroyBrick b else b) := by
  induction bricks with
  | nil =>
    refine ⟨rfl, ?_⟩
    intro i b h
    simp at h
  | cons a t ih =>
    by_cases hc : a.active = true ∧ (a.row - centerRow).natAbs ≤ 1 ∧
        (a.col - centerCol).natAbs ≤ 1
    · refine ⟨?_, ?_⟩
      · simp only [ApplyOverloadedAoE, if_pos hc, List.length_cons]
        rw [ih.1]
      · intro i b h
        cases i with
        | zero =>
          simp only [List.getElem?_cons_zero, Option.some.injEq] at h
          subst h
          simp only [ApplyOverloadedAoE, if_pos hc, List.getElem?_cons_zero, if_pos hc]
        | succ n =>
          rw [List.getElem?_cons_succ] at h
          simp only [ApplyOverloadedAoE, if_pos hc, List.getElem?_cons_succ]
          exact ih.2 n b h
    · refine ⟨?_, ?_⟩
      · simp only [ApplyOverloadedAoE, if_neg hc, List.length_cons]
        rw [ih.1]
      · intro i b h
        cases i with
        | zero =>
          simp only [List.getElem?_cons_zero, Option.some.injEq] at h
          subst h
          simp only [ApplyOverloadedAoE, if_neg hc, List.getElem?_cons_zero, if_neg hc]
        | succ n =>
          rw [List.getElem?_cons_succ] at h
          simp only [ApplyOverloadedAoE, if_neg hc, List.getElem?_cons_succ]
          exact ih.2 n b h

/-- A deferred event whose target is already gone: for a `SurgeChain`, no
active brick on the target cell; for an `OverloadAoE`, no active brick in the
3-by-3 block. -/
def targetDead (bricks : List Brick) (e : ReactionEvent) : Prop :=
  match e.kind with
  | ReactionKind.SurgeChain =>
    ∀ b, brickAt? bricks (e.row, e.col) = some b → b.active = false
  | ReactionKind.OverloadAoE =>
    ∀ b ∈ bricks, ¬ (b.active = true ∧ (b.row - e.row).natAbs ≤ 1 ∧
        (b.col - e.col).natAbs ≤ 1)

theorem ApplyOverloadedAoE_dead (bricks : List Brick) (r c : Int)
    (h : ∀ b ∈ bricks, ¬ (b.active = true ∧ (b.row - r).natAbs ≤ 1 ∧ (b.col - c).natAbs ≤ 1)) :
    ApplyOverloadedAoE bricks r c = (bricks, 0) := by
  induction bricks with
  | nil => rfl
  | cons a t ih =>
    have ha := h a (List.mem_cons_self _ _)
    have ht := ih fun b hb => h b (List.mem_cons_of_mem _ hb)
    simp only [ApplyOverloadedAoE, if_neg ha, ht]

theorem applyEvent_dead (bricks : List Brick) (e : ReactionEvent)
    (h : targetDead bricks e) : applyEvent bricks e = (bricks, 0) := by
  cases hk : e.kind with
  | OverloadAoE =>
    rw [applyEvent, hk]
    refine ApplyOverloadedAoE_dead bricks e.row e.col ?_
    rw [targetDead, hk] at h
    exact h
  | SurgeChain =>
    rw [applyEvent, hk]
    rw [targetDead, hk] at h
    cases hfind : brickFindAt? bricks (e.row, e.col) with
    | none => rfl
    | some jb =>
      have hb : brickAt? bricks (e.row, e.col) = some jb.2 := by
        rw [brickAt?, hfind]; rfl
      simp [h jb.2 hb]

/-! ### Surge chain rays -/

theorem SurgeChainStepDelay_pos : 0 < SurgeChainStepDelay := by
  norm_num [SurgeChainStepDelay]

/-- Every event on a surge ray sits on the ray at some step `j`, carries
timer `SurgeChainStepDelay * (distance + j)`, and targets an in-bounds cell
holding an active brick. -/
theorem surgeRay_sound (bricks : List Brick) (dR dC : Int) :
    ∀ (row col : Int) (distance fuel : Nat),
      ∀ e ∈ surgeRay bricks dR dC row col distance fuel,
        ∃ j : Nat, j < fuel ∧ e.row = row + (j : Int) * dR ∧ e.col = col + (j : Int) * dC ∧
          e.timer = SurgeChainStepDelay * ((distance : ℚ) + (j : ℚ)) ∧
          e.kind = ReactionKind.SurgeChain ∧
          inBounds (e.row, e.col) = true ∧
          ∃ b, brickAt? bricks (e.row, e.col) = some b ∧ b.active = true := by
  intro row col distance fuel
  induction fuel generalizing row col distance with
  | zero => intro e he; simp [surgeRay] at he
  | succ n ih =>
    intro e he
    rw [surgeRay] at he
    by_cases hbnd : inBounds (row, col) = true
    · rw [if_pos hbnd] at he
      rcases List.mem_append.mp he with hhead | htail
      · cases hfind : brickAt? bricks (row, col) with
        | none => rw [hfind] at hhead; cases hhead
        | some b =>
          rw [hfind] at hhead
          by_cases hactb : b.active = true
          · simp only [hactb, if_true, List.mem_singleton] at hhead
            subst hhead
            exact ⟨0, Nat.succ_pos n, by simp, by simp, by simp, rfl,
              by simpa using hbnd, b, by simpa using hfind, hactb⟩
          · simp [hactb] at hhead
      · obtain ⟨j, hj, hrow, hcol, htimer, hkind, hbnd', hbrick⟩ :=
          ih (row + dR) (col + dC) (distance + 1) e htail
        refine ⟨j + 1, by omega, ?_, ?_, ?_, hkind, hbnd', hbrick⟩
        · rw [hrow]; push_cast; ring
        · rw [hcol]; push_cast; ring
        · rw [htimer]; push_cast; ring
    · rw [if_neg hbnd] at he
      cases he

/-- Every active occupied in-bounds cell along the ray (up to the fuel, with
the walk not yet having left the grid) yields its event. -/
theorem surgeRay_complete (bricks : List Brick) (dR dC : Int) :
    ∀ (row col : Int) (distance fuel : Nat) (j : Nat), j < fuel →
      (∀ k : Nat, k ≤ j → inBounds (row + (k : Int) * dR, col + (k : Int) * dC) = true) →
      ∀ b, brickAt? bricks (row + (j : Int) * dR, col + (j : Int) * dC) = some b →
        b.active = true →
        ReactionEvent.mk (row + (j : Int) * dR) (col + (j : Int) * dC)
          (SurgeChainStepDelay * ((distance : ℚ) + (j : ℚ))) ReactionKind.SurgeChain
          ∈ surgeRay bricks dR dC row col distance fuel := by
  intro row col distance fuel
  induction fuel generalizing row col distance with
  | zero => intro j hj; omega
  | succ n ih =>
    intro j hj hk b hfind hact
    have hbnd0 : inBounds (row, col) = true := by
      have := hk 0 (Nat.zero_le j)
      simpa using this
    rw [surgeRay, if_pos hbnd0]
    cases j with
    | zero =>
      apply List.mem_append_left
      simp only [Nat.cast_zero, zero_mul, add_zero] at hfind ⊢
      rw [hfind]
      simp [hact]
    | succ m =>
      apply List.mem_append_right
      have hk' : ∀ k : Nat, k ≤ m →
          inBounds (row + dR + (k : Int) * dR, col + dC + (k : Int) * dC) = true := by
        intro k hkm
        have := hk (k + 1) (by omega)
        have harr : row + ((k : Int) + 1) * dR = row + dR + (k : Int) * dR := by ring
        have hacc : col + ((k : Int) + 1) * dC = col + dC + (k : Int) * dC := by ring
        push_cast at this
        rw [harr, hacc] at this
        exact this
      have hfind' : brickAt? bricks
          (row + dR + (m : Int) * dR, col + dC + (m : Int) * dC) = some b := by
        have harr : row + ((m : Int) + 1) * dR = row + dR + (m : Int) * dR := by ring
        have hacc : col + ((m : Int) + 1) * dC = col + dC + (m : Int) * dC := by ring
        push_cast at hfind
        rw [harr, hacc] at hfind
        exact hfind
      have := ih (row + dR) (col + dC) (distance + 1) m (by omega) hk' b hfind' hact
      have h1 : row + dR + (m : Int) * dR = row + ((m + 1 : Nat) : Int) * dR := by
        push_cast; ring
      have h2 : col + dC + (m : Int) * dC = col + ((m + 1 : Nat) : Int) * dC := by
        push_cast; ring
      have h3 : SurgeChainStepDelay * (((distance + 1 : Nat) : ℚ) + (m : ℚ))
          = SurgeChainStepDelay * ((distance : ℚ) + ((m + 1 : Nat) : ℚ)) := by
        push_cast; ring
      rw [← h1, ← h2, ← h3]
      exact this

theorem surgeRay_timer_lb (bricks : List Brick) (dR dC : Int) :
    ∀ (row col : Int) (distance fuel : Nat),
      ∀ e ∈ surgeRay bricks dR dC row col distance fuel,
        SurgeChainStepDelay * (distance : ℚ) ≤ e.timer := by
  intro row col distance fuel e he
  obtain ⟨j, _, _, _, htimer, _⟩ := surgeRay_sound bricks dR dC row col distance fuel e he
  rw [htimer]
  have hd := SurgeChainStepDelay_pos
  have hj : (0 : ℚ) ≤ (j : ℚ) := Nat.cast_nonneg j
  nlinarith

/-- Surge-ray timers are strictly increasing along the ray. -/
theorem surgeRay_timer_sorted (bricks : List Brick) (dR dC : Int) :
    ∀ (row col : Int) (distance fuel : Nat),
      (surgeRay bricks dR dC row col distance fuel).Pairwise
        (fun a b => a.timer < b.timer) := by
  intro row col distance fuel
  induction fuel generalizing row col distance with
  | zero => simp [surgeRay]
  | succ n ih =>
    rw [surgeRay]
    by_cases hbnd : inBounds (row, col) = true
    · rw [if_pos hbnd]
      apply List.pairwise_append.mpr
      refine ⟨?_, ih (row + dR) (col + dC) (distance + 1), ?_⟩
      · cases hfind : brickAt? bricks (row, col) with
        | none => simp
        | some b =>
          by_cases hactb : b.active = true
          · simp [hactb]
          · simp [hactb]
      · intro a ha b hb
        have hbtl := surgeRay_timer_lb bricks dR dC (row + dR) (col + dC) (distance + 1) n b hb
        have hatimer : a.timer = SurgeChainStepDelay * (distance : ℚ) := by
          cases hfind : brickFindAt? bricks (row, col) with
          | none => rw [brickAt?, hfind] at ha; simp at ha
          | some jb =>
            rw [brickAt?, hfind] at ha
            by_cases hactb : jb.2.active = true
            · simp only [Option.map_some', hactb, if_true, List.mem_singleton] at ha
              rw [ha]
            · simp [hactb] at ha
        rw [hatimer]
        have hd := SurgeChainStepDelay_pos
        have : SurgeChainStepDelay * ((distance : ℚ) + 1) ≤ b.timer := by
          have : ((distance + 1 : Nat) : ℚ) = (distance : ℚ) + 1 := by push_cast; ring
          rw [← this]
          exact hbtl
        nlinarith
    · rw [if_neg hbnd]
      exact List.Pairwise.nil

/-- Completeness of a surge ray, phrased from the struck cell: for a
diagonal direction, if every cell at steps `1..k` along the ray is in
bounds and step `k` holds an active brick, the ray contains the event for
step `k` with timer `SurgeChainStepDelay * k`. -/
theorem surgeRay_complete_from_start (bricksD : List Brick) (dR dC : Int)
    (hdR : dR = 1 ∨ dR = -1) (r c : Int) (k : Nat) (hk : 1 ≤ k)
    (hchain : ∀ k' : Nat, 1 ≤ k' → k' ≤ k →
      inBounds (r + (k' : Int) * dR, c + (k' : Int) * dC) = true)
    (b : Brick) (hfind : brickAt? bricksD (r + (k : Int) * dR, c + (k : Int) * dC) = some b)
    (hactb : b.active = true) :
    ReactionEvent.mk (r + (k : Int) * dR) (c + (k : Int) * dC)
      (SurgeChainStepDelay * (k : ℚ)) ReactionKind.SurgeChain
      ∈ surgeRay bricksD dR dC (r + dR) (c + dC) 1 7 := by
  obtain ⟨m, rfl⟩ : ∃ m, k = m + 1 := ⟨k - 1, by omega⟩
  have h1 := hchain 1 le_rfl (by omega)
  have hkk := hchain (m + 1) hk le_rfl
  have hmb : m < 7 := by
    simp only [inBounds, BrickRows, BrickCols, decide_eq_true_eq] at h1 hkk
    rcases hdR with rfl | rfl <;> push_cast at h1 hkk <;> omega
  have hchain' : ∀ k' : Nat, k' ≤ m →
      inBounds (r + dR + (k' : Int) * dR, c + dC + (k' : Int) * dC) = true := by
    intro k' hk'
    have := hchain (k' + 1) (by omega) (by omega)
    have harr : r + ((k' + 1 : Nat) : Int) * dR = r + dR + (k' : Int) * dR := by
      push_cast; ring
    have hacc : c + ((k' + 1 : Nat) : Int) * dC = c + dC + (k' : Int) * dC := by
      push_cast; ring
    rw [harr, hacc] at this
    exact this
  have hfind' : brickAt? bricksD
      (r + dR + (m : Int) * dR, c + dC + (m : Int) * dC) = some b := by
    have harr : r + ((m + 1 : Nat) : Int) * dR = r + dR + (m : Int) * dR := by
      push_cast; ring
    have hacc : c + ((m + 1 : Nat) : Int) * dC = c + dC + (m : Int) * dC := by
      push_cast; ring
    rw [harr, hacc] at hfind
    exact hfind
  have hmem := surgeRay_complete bricksD dR dC (r + dR) (c + dC) 1 7 m hmb hchain'
    b hfind' hactb
  have h1e : r + dR + (m : Int) * dR = r + ((m + 1 : Nat) : Int) * dR := by
    push_cast; ring
  have h2e : c + dC + (m : Int) * dC = c + ((m + 1 : Nat) : Int) * dC := by
    push_cast; ring
  have h3e : SurgeChainStepDelay * (((1 : Nat) : ℚ) + (m : ℚ))
      = SurgeChainStepDelay * (((m + 1 : Nat) : ℚ)) := by
    push_cast; ring
  rw [h1e, h2e, h3e] at hmem
  exact hmem

/-! ### Brick-contact traces -/

theorem set_self_of_getElem? {l : List Brick} :
    ∀ {i : Nat} {a : Brick}, l[i]? = some a → l.set i a = l := by
  induction l with
  | nil => intro i a h; simp at h
  | cons x t ih =>
    intro i a h
    cases i with
    | zero =>
      simp only [List.getElem?_cons_zero, Option.some.injEq] at h
      subst h
      rfl
    | succ n =>
      rw [List.getElem?_cons_succ] at h
      simp only [List.set_cons_succ]
      rw [ih h]

theorem eventPhase_ball (triggeredSwirl overloadTriggered surgeTriggered shatter : Bool)
    (ball1 : Ball) (bricks4 : List Brick) (destroyed : Bool) (r c : Int)
    (events : List ReactionEvent) :
    (eventPhase triggeredSwirl overloadTriggered surgeTriggered shatter ball1 bricks4
        destroyed r c events).ball
      = if overloadTriggered = true then { ball1 with overloaded := false } else ball1 := by
  rw [eventPhase]
  cases destroyed <;> simp

/-- The amended Vaporize-with-overload contact (C2): the brick is destroyed,
the `overloaded` flag is cleared, AND an `OverloadAoE` event on the struck
cell is scheduled — the overload effect is additive, not suppressed. -/
theorem HandleBrickContact_vaporize_overload
    (ball : Ball) (bricks : List Brick) (i : Nat) (events : List ReactionEvent)
    {brick0 : Brick} (hbi : bricks[i]? = some brick0)
    (hact : brick0.active = true)
    (hball : ball.colorIndex = ColorIndexBlue) (hbrick : brick0.colorIndex = ColorIndexRed)
    (hfz : ball.freezeReady = false) (hov : ball.overloaded = true)
    (hfr : brick0.frozen = false) :
    HandleBrickContact ball bricks i events =
      ⟨{ ball with overloaded := false }, bricks.set i (DestroyBrick brick0),
        events ++ [ReactionEvent.mk brick0.row brick0.col OverloadAoEDelay ReactionKind.OverloadAoE],
        1⟩ := by
  have hfz' : freezePhase ball bricks brick0 = (ball, bricks) := by
    rw [freezePhase, if_neg (by rw [hfz]; simp)]
  have hrc : ruleChain ball.colorIndex brick0.colorIndex bricks brick0.row brick0.col
      = ⟨bricks, true, false, false, false⟩ := by
    rw [ruleChain, if_pos ⟨hball, hbrick⟩]
  have hfp : frozenPhase ball.colorIndex bricks i brick0 = (bricks, false) := by
    rw [frozenPhase, if_neg (by rw [hfr]; simp)]
  simp only [HandleBrickContact, hbi, hact, Bool.true_eq_false, if_false, hfz', hrc, hfp,
    Option.getD_some, hov, Bool.false_or, Bool.or_false, Bool.true_or, Bool.or_true,
    destructionPhase, if_true, eventPhase]
  norm_num
  intro h
  rw [hball] at h
  norm_num [ColorIndexBlue, ColorIndexGreen] at h

/-- A Surge contact (C4): the struck brick is instantly destroyed and the
four diagonal rays are scheduled against the post-destruction field. -/
theorem HandleBrickContact_surge
    (ball : Ball) (bricks : List Brick) (i : Nat) (events : List ReactionEvent)
    {brick0 : Brick} (hbi : bricks[i]? = some brick0)
    (hact : brick0.active = true)
    (hsurge : (ball.colorIndex = ColorIndexPurple ∧ brick0.colorIndex = ColorIndexBlue) ∨
      (ball.colorIndex = ColorIndexBlue ∧ brick0.colorIndex = ColorIndexPurple))
    (hfz : ball.freezeReady = false) (hov : ball.overloaded = false)
    (hfr : brick0.frozen = false) :
    HandleBrickContact ball bricks i events =
      ⟨ball, bricks.set i (DestroyBrick brick0),
        events ++ SurgeEvents (bricks.set i (DestroyBrick brick0)) brick0.row brick0.col,
        1⟩ := by
  have hfz' : freezePhase ball bricks brick0 = (ball, bricks) := by
    rw [freezePhase, if_neg (by rw [hfz]; simp)]
  have hnotvap : ¬ (ball.colorIndex = ColorIndexBlue ∧ brick0.colorIndex = ColorIndexRed) := by
    rintro ⟨h1, h2⟩
    rcases hsurge with ⟨h3, h4⟩ | ⟨h3, h4⟩ <;>
      simp [ColorIndexBlue, ColorIndexRed, ColorIndexPurple, h1, h2] at h3 h4 <;> omega
  have hnotliq : ¬ (ball.colorIndex = ColorIndexLightBlue ∧ brick0.colorIndex = ColorIndexRed) := by
    rintro ⟨h1, h2⟩
    rcases hsurge with ⟨h3, h4⟩ | ⟨h3, h4⟩ <;>
      rw [h1] at h3 <;> norm_num [ColorIndexLightBlue, ColorIndexPurple, ColorIndexBlue] at h3
  have hrc : ruleChain ball.colorIndex brick0.colorIndex bricks brick0.row brick0.col
      = ⟨bricks, true, false, false, true⟩ := by
    rw [ruleChain, if_neg hnotvap, if_neg hnotliq, if_pos hsurge]
  have hfp : frozenPhase ball.colorIndex bricks i brick0 = (bricks, false) := by
    rw [frozenPhase, if_neg (by rw [hfr]; simp)]
  have hswirl : ¬ (ball.colorIndex = ColorIndexGreen ∧ ¬ brick0.colorIndex = ColorIndexGreen ∧
      ¬ brick0.colorIndex = -1) := by
    rintro ⟨h1, _⟩
    rcases hsurge with ⟨h3, _⟩ | ⟨h3, _⟩ <;> rw [h1] at h3 <;>
      norm_num [ColorIndexGreen, ColorIndexPurple, ColorIndexBlue] at h3
  simp only [HandleBrickContact, hbi, hact, Bool.true_eq_false, if_false, hfz', hrc, hfp,
    Option.getD_some, hov, hswirl, decide_eq_true_eq, decide_eq_false_iff_not, not_false_iff,
    Bool.false_or, Bool.or_false, Bool.true_or, Bool.or_true,
    destructionPhase, if_true, eventPhase, ScheduleSurgeChain]
  simp [hswirl]

/-- Any brick contact consumes `freezeReady`: the flag is cleared whether or
not the struck brick had an element, and whatever later rules fire. -/
theorem HandleBrickContact_clears_freezeReady
    (ball : Ball) (bricks : List Brick) (i : Nat) (events : List ReactionEvent)
    {brick0 : Brick} (hbi : bricks[i]? = some brick0) (hact : brick0.active = true)
    (hfzr : ball.freezeReady = true) :
    (HandleBrickContact ball bricks i events).ball.freezeReady = false := by
  have hfz1 : (freezePhase ball bricks brick0).1 = { ball with freezeReady := false } := by
    rw [freezePhase, if_pos hfzr]
  simp only [HandleBrickContact, hbi, hact, Bool.true_eq_false, if_false, eventPhase_ball]
  rw [hfz1]
  split <;> rfl

/-- A neutral (element `-1`) ball striking a Green brick fires the Infuse
rule: the handler recolors the whole connected Green cluster via
`InfuseAdjacentBricks` with new element `-1`, destroys nothing, and leaves
the ball unchanged. -/
theorem HandleBrickContact_infuse_neutral
    (ball : Ball) (bricks : List Brick) (i : Nat) (events : List ReactionEvent)
    {brick0 : Brick} (hnd : CellsNodup bricks) (hbi : bricks[i]? = some brick0)
    (hact : brick0.active = true) (hball : ball.colorIndex = -1)
    (hbrick : brick0.colorIndex = ColorIndexGreen)
    (hfz : ball.freezeReady = false) (hov : ball.overloaded = false)
    (hbnd : inBounds brick0.cell = true) :
    HandleBrickContact ball bricks i events =
      ⟨ball, (InfuseAdjacentBricks bricks brick0.row brick0.col ball.colorIndex).1,
        events, 0⟩ := by
  have hfz' : freezePhase ball bricks brick0 = (ball, bricks) := by
    rw [freezePhase, if_neg (by rw [hfz]; simp)]
  have hfind : brickFindAt? bricks (brick0.row, brick0.col) = some (i, brick0) :=
    brickFindAt?_self hnd hbi
  have hpred : (fun b => b.active && b.colorIndex == ColorIndexGreen) brick0 = true := by
    simp [hact, hbrick]
  have hcountpos : 0 < (InfuseAdjacentBricks bricks brick0.row brick0.col ball.colorIndex).2 := by
    rw [InfuseAdjacentBricks]
    exact fill_count_pos _ bricks [] 0 hbnd hfind hpred
  have hrc : ruleChain ball.colorIndex brick0.colorIndex bricks brick0.row brick0.col
      = ⟨(InfuseAdjacentBricks bricks brick0.row brick0.col ball.colorIndex).1,
         false, false, true, false⟩ := by
    rw [ruleChain,
      if_neg (by rw [hball]; norm_num [ColorIndexBlue]),
      if_neg (by rw [hball]; norm_num [ColorIndexLightBlue]),
      if_neg (by rw [hball]; norm_num [ColorIndexPurple, ColorIndexBlue]),
      if_pos ⟨by rw [hball]; norm_num [ColorIndexGreen], hbrick⟩]
    simp [hcountpos]
  have hmark : (InfuseAdjacentBricks bricks brick0.row brick0.col ball.colorIndex).1[i]?
      = some (infuseBrick ball.colorIndex brick0) := by
    have hpost := InfuseAdjacentBricks_post bricks hnd brick0.row brick0.col ball.colorIndex
    refine (hpost i brick0 hbi).1 ⟨Reach.base ?_, hbnd, hpred⟩
    simp [Brick.cell]
  have hfp : frozenPhase ball.colorIndex
      (InfuseAdjacentBricks bricks brick0.row brick0.col ball.colorIndex).1 i
      (infuseBrick ball.colorIndex brick0)
      = ((InfuseAdjacentBricks bricks brick0.row brick0.col ball.colorIndex).1, false) := by
    rw [frozenPhase, if_neg (by simp [infuseBrick])]
  have hsetid : (InfuseAdjacentBricks bricks brick0.row brick0.col ball.colorIndex).1.set i
      { infuseBrick ball.colorIndex brick0 with colorIndex := ball.colorIndex }
      = (InfuseAdjacentBricks bricks brick0.row brick0.col ball.colorIndex).1 := by
    have hid : ({ infuseBrick ball.colorIndex brick0 with colorIndex := ball.colorIndex } : Brick)
        = infuseBrick ball.colorIndex brick0 := rfl
    rw [hid]
    exact set_self_of_getElem? hmark
  have hswirl : ¬ (ball.colorIndex = ColorIndexGreen ∧
      ¬ brick0.colorIndex = ColorIndexGreen ∧ ¬ brick0.colorIndex = -1) := by
    rintro ⟨h1, _⟩
    rw [hball] at h1
    norm_num [ColorIndexGreen] at h1
  simp only [HandleBrickContact, hbi, hact, Bool.true_eq_false, if_false, hfz',
    Option.getD_some, hrc, hmark, hfp, hov, hswirl, decide_eq_true_eq,
    decide_eq_false_iff_not, not_false_iff, Bool.false_or, Bool.or_false,
    destructionPhase, Bool.true_eq_false, if_true, if_false, hsetid, eventPhase]
  simp [hswirl]

/-! ### The brick invariant -/

/-- Spec invariant: a destroyed brick has no hit points and is not frozen. -/
def BrickInv (b : Brick) : Prop := b.active = false → b.hitPoints = 0 ∧ b.frozen = false

theorem BrickInv_destroy (b : Brick) : BrickInv (DestroyBrick b) := by
  intro _
  exact ⟨rfl, rfl⟩

theorem inv_set {l : List Brick} (h : ∀ b ∈ l, BrickInv b) {a : Brick} (ha : BrickInv a)
    (i : Nat) : ∀ b ∈ l.set i a, BrickInv b := by
  intro b hb
  rcases List.mem_or_eq_of_mem_set hb with hmem | rfl
  · exact h b hmem
  · exact ha

theorem FreezeConnectedBricks_inv (bricks : List Brick) (r c t : Int)
    (h : ∀ b ∈ bricks, BrickInv b) :
    ∀ b ∈ (FreezeConnectedBricks bricks r c t).1, BrickInv b := by
  rw [FreezeConnectedBricks]
  by_cases ht : t < 0
  · rw [if_pos ht]; exact h
  · rw [if_neg ht]
    refine fill_forall_preserved BrickInv _ freezeBrick ?_ bricks [] _ 0 h
    intro b hb
    rw [Bool.and_eq_true] at hb
    intro hfa
    have hba : b.active = false := hfa
    rw [hb.1] at hba
    cases hba

theorem InfuseAdjacentBricks_inv (bricks : List Brick) (r c ci : Int)
    (h : ∀ b ∈ bricks, BrickInv b) :
    ∀ b ∈ (InfuseAdjacentBricks bricks r c ci).1, BrickInv b := by
  rw [InfuseAdjacentBricks]
  refine fill_forall_preserved BrickInv _ (infuseBrick ci) ?_ bricks [] _ 0 h
  intro b hb
  rw [Bool.and_eq_true] at hb
  intro hfa
  have hba : b.active = false := hfa
  rw [hb.1] at hba
  cases hba

theorem ShatterFrozenNeighbors_inv (bricks : List Brick) (r c : Int)
    (h : ∀ b ∈ bricks, BrickInv b) :
    ∀ b ∈ (ShatterFrozenNeighbors bricks r c).1, BrickInv b := by
  rw [ShatterFrozenNeighbors]
  exact fill_forall_preserved BrickInv _ DestroyBrick (fun b _ => BrickInv_destroy b)
    bricks [] _ 0 h

theorem ApplyOverloadedAoE_inv (bricks : List Brick) (r c : Int)
    (h : ∀ b ∈ bricks, BrickInv b) :
    ∀ b ∈ (ApplyOverloadedAoE bricks r c).1, BrickInv b := by
  induction bricks with
  | nil => intro b hb; cases hb
  | cons a t ih =>
    have ha := h a (List.mem_cons_self _ _)
    have ht := ih fun b hb => h b (List.mem_cons_of_mem _ hb)
    intro b hb
    rw [ApplyOverloadedAoE] at hb
    split at hb
    · rcases List.mem_cons.mp hb with rfl | hmem
      · exact BrickInv_destroy a
      · exact ht b hmem
    · rcases List.mem_cons.mp hb with rfl | hmem
      · exact ha
      · exact ht b hmem

theorem applyEvent_inv (bricks : List Brick) (e : ReactionEvent)
    (h : ∀ b ∈ bricks, BrickInv b) :
    ∀ b ∈ (applyEvent bricks e).1, BrickInv b := by
  rw [applyEvent]
  cases e.kind with
  | OverloadAoE => exact ApplyOverloadedAoE_inv bricks e.row e.col h
  | SurgeChain =>
    cases hfind : brickFindAt? bricks (e.row, e.col) with
    | none => exact h
    | some jb =>
      show ∀ b ∈ (if jb.2.active = true then
          (bricks.set jb.1 (DestroyBrick jb.2), 1) else (bricks, 0)).1, BrickInv b
      by_cases hactb : jb.2.active = true
      · rw [if_pos hactb]
        exact inv_set h (BrickInv_destroy jb.2) jb.1
      · rw [if_neg hactb]
        exact h

theorem resolveLoop_inv :
    ∀ (events : List ReactionEvent) (bricks : List Brick) (removed : Nat),
      (∀ b ∈ bricks, BrickInv b) →
      ∀ b ∈ (resolveLoop events bricks removed).2.1, BrickInv b := by
  intro events
  induction events with
  | nil => intro bricks removed h; exact h
  | cons e rest ih =>
    intro bricks removed h
    rw [resolveLoop]
    by_cases he : e.timer ≤ 0
    · rw [if_pos he]
      exact ih _ _ (applyEvent_inv bricks e h)
    · rw [if_neg he]
      exact ih _ _ h

theorem ResolveReactionEvents_inv (dt : ℚ) (events : List ReactionEvent)
    (bricks : List Brick) (h : ∀ b ∈ bricks, BrickInv b) :
    ∀ b ∈ (ResolveReactionEvents dt events bricks).2.1, BrickInv b :=
  resolveLoop_inv _ bricks 0 h

theorem freezePhase_inv (ball : Ball) (bricks : List Brick) (brick0 : Brick)
    (h : ∀ b ∈ bricks, BrickInv b) :
    ∀ b ∈ (freezePhase ball bricks brick0).2, BrickInv b := by
  rw [freezePhase]
  split
  · dsimp only
    split
    · exact h
    · exact FreezeConnectedBricks_inv bricks _ _ _ h
  · exact h

theorem ruleChain_inv (ballCI brickCI : Int) (bricks : List Brick) (r c : Int)
    (h : ∀ b ∈ bricks, BrickInv b) :
    ∀ b ∈ (ruleChain ballCI brickCI bricks r c).bricks, BrickInv b := by
  rw [ruleChain]
  split
  · exact h
  · split
    · exact h
    · split
      · exact h
      · split
        · exact InfuseAdjacentBricks_inv bricks r c ballCI h
        · exact h

theorem frozenPhase_inv (ballCI : Int) (bricks2 : List Brick) (i : Nat) (brick2 : Brick)
    (h : ∀ b ∈ bricks2, BrickInv b) (hfa : brick2.frozen = true → brick2.active = true) :
    ∀ b ∈ (frozenPhase ballCI bricks2 i brick2).1, BrickInv b := by
  rw [frozenPhase]
  split
  · split
    · refine inv_set h ?_ i
      intro hba
      have : brick2.active = false := hba
      rw [hfa (by assumption)] at this
      cases this
    · exact h
  · exact h

theorem destructionPhase_inv (ib lq inf : Bool) (ballCI : Int) (bricks3 : List Brick)
    (i : Nat) (brick3 : Brick) (h : ∀ b ∈ bricks3, BrickInv b)
    (hact3 : brick3.active = true) :
    ∀ b ∈ (destructionPhase ib lq inf ballCI bricks3 i brick3).1, BrickInv b := by
  rw [destructionPhase]
  split
  · exact inv_set h (BrickInv_destroy brick3) i
  · split
    · refine inv_set h ?_ i
      intro hba
      have : brick3.active = false := hba
      rw [hact3] at this
      cases this
    · split
      · refine inv_set h ?_ i
        intro hba
        have : brick3.active = false := hba
        rw [hact3] at this
        cases this
      · split
        · exact inv_set h (BrickInv_destroy _) i
        · refine inv_set h ?_ i
          intro hba
          have : brick3.active = false := hba
          rw [hact3] at this
          cases this

theorem eventPhase_inv (ts ov sg sh : Bool) (ball1 : Ball) (bricks4 : List Brick)
    (destroyed : Bool) (r c : Int) (events : List ReactionEvent)
    (h : ∀ b ∈ bricks4, BrickInv b) :
    ∀ b ∈ (eventPhase ts ov sg sh ball1 bricks4 destroyed r c events).bricks, BrickInv b := by
  cases destroyed with
  | false => exact h
  | true =>
    cases sh with
    | true => exact ShatterFrozenNeighbors_inv _ r c h
    | false => exact h

theorem freezePhase_active (ball : Ball) (bricks : List Brick) (brick0 : Brick) (j : Nat) :
    (((freezePhase ball bricks brick0).2)[j]?).map Brick.active
      = (bricks[j]?).map Brick.active := by
  rw [freezePhase]
  split
  · dsimp only
    split
    · rfl
    · rw [FreezeConnectedBricks]
      split
      · rfl
      · exact fill_field_preserved Brick.active _ freezeBrick (fun b => rfl) bricks [] _ 0 j
  · rfl

theorem ruleChain_active (ballCI brickCI : Int) (bricks : List Brick) (r c : Int) (j : Nat) :
    (((ruleChain ballCI brickCI bricks r c).bricks)[j]?).map Brick.active
      = (bricks[j]?).map Brick.active := by
  rw [ruleChain]
  split
  · rfl
  · split
    · rfl
    · split
      · rfl
      · split
        · rw [InfuseAdjacentBricks]
          exact fill_field_preserved Brick.active _ (infuseBrick ballCI) (fun b => rfl)
            bricks [] _ 0 j
        · rfl

theorem frozenPhase_active (ballCI : Int) (bricks2 : List Brick) (i : Nat) (brick2 : Brick)
    (hb2 : bricks2[i]? = some brick2) (j : Nat) :
    (((frozenPhase ballCI bricks2 i brick2).1)[j]?).map Brick.active
      = (bricks2[j]?).map Brick.active := by
  rw [frozenPhase]
  split
  · split
    · dsimp only
      rw [List.getElem?_set]
      by_cases hij : i = j
      · subst hij
        have hlt : i < bricks2.length := by
          by_contra hge
          rw [List.getElem?_eq_none (by omega)] at hb2
          cases hb2
        rw [if_pos rfl, if_pos hlt, hb2]
        rfl
      · rw [if_neg hij]
    · rfl
  · rfl

/-- Pipeline fact: a non-`none` position whose brick is active stays that way
through a phase that preserves the `active` field pointwise. -/
theorem active_through {l₁ l₂ : List Brick} {i : Nat} {b₁ : Brick}
    (hmap : (l₂[i]?).map Brick.active = (l₁[i]?).map Brick.active)
    (hb₁ : l₁[i]? = some b₁) (hact : b₁.active = true) :
    ∃ b₂, l₂[i]? = some b₂ ∧ b₂.active = true := by
  rw [hb₁] at hmap
  cases hl₂ : l₂[i]? with
  | none => rw [hl₂] at hmap; simp at hmap
  | some b₂ =>
    rw [hl₂] at hmap
    simp only [Option.map_some', Option.some.injEq] at hmap
    exact ⟨b₂, rfl, by rw [hmap, hact]⟩

/-- The whole brick-contact handler preserves the brick invariant, whatever
rule fires. -/
theorem HandleBrickContact_inv (ball : Ball) (bricks : List Brick) (i : Nat)
    (events : List ReactionEvent) (h : ∀ b ∈ bricks, BrickInv b) :
    ∀ b ∈ (HandleBrickContact ball bricks i events).bricks, BrickInv b := by
  rw [HandleBrickContact]
  cases hbi : bricks[i]? with
  | none => exact h
  | some brick0 =>
    dsimp only
    by_cases hact0 : brick0.active = false
    · rw [if_pos hact0]; exact h
    · rw [if_neg hact0]
      have hact0' : brick0.active = true := by
        revert hact0; cases brick0.active <;> simp
      have hinv1 : ∀ b ∈ (freezePhase ball bricks brick0).2, BrickInv b :=
        freezePhase_inv ball bricks brick0 h
      obtain ⟨b1, hb1, hb1act⟩ :=
        active_through (freezePhase_active ball bricks brick0 i) hbi hact0'
      have hbrick1 : ((freezePhase ball bricks brick0).2[i]?).getD brick0 = b1 := by
        rw [hb1]; rfl
      rw [hbrick1]
      have hinv2 : ∀ b ∈ (ruleChain (freezePhase ball bricks brick0).1.colorIndex
          b1.colorIndex (freezePhase ball bricks brick0).2 brick0.row brick0.col).bricks,
          BrickInv b :=
        ruleChain_inv _ _ _ _ _ hinv1
      obtain ⟨b2, hb2, hb2act⟩ := active_through
        (ruleChain_active (freezePhase ball bricks brick0).1.colorIndex b1.colorIndex
          (freezePhase ball bricks brick0).2 brick0.row brick0.col i) hb1 hb1act
      have hbrick2 : ((ruleChain (freezePhase ball bricks brick0).1.colorIndex b1.colorIndex
          (freezePhase ball bricks brick0).2 brick0.row brick0.col).bricks[i]?).getD b1
            = b2 := by
        rw [hb2]; rfl
      rw [hbrick2]
      have hinv3 : ∀ b ∈ (frozenPhase (freezePhase ball bricks brick0).1.colorIndex
          (ruleChain (freezePhase ball bricks brick0).1.colorIndex b1.colorIndex
            (freezePhase ball bricks brick0).2 brick0.row brick0.col).bricks i b2).1,
          BrickInv b :=
        frozenPhase_inv _ _ i b2 hinv2 (fun _ => hb2act)
      obtain ⟨b3, hb3, hb3act⟩ := active_through
        (frozenPhase_active (freezePhase ball bricks brick0).1.colorIndex
          (ruleChain (freezePhase ball bricks brick0).1.colorIndex b1.colorIndex
            (freezePhase ball bricks brick0).2 brick0.row brick0.col).bricks i b2 hb2 i)
        hb2 hb2act
      have hbrick3 : ((frozenPhase (freezePhase ball bricks brick0).1.colorIndex
          (ruleChain (freezePhase ball bricks brick0).1.colorIndex b1.colorIndex
            (freezePhase ball bricks brick0).2 brick0.row brick0.col).bricks i b2).1[i]?).getD
            b2 = b3 := by
        rw [hb3]; rfl
      rw [hbrick3]
      apply eventPhase_inv
      exact destructionPhase_inv _ _ _ _ _ i b3 hinv3 hb3act

/-- Resolving a single expired event with a dead target removes the event,
changes no brick, and contributes 0 to the removed count. -/
theorem ResolveReactionEvents_dead (dt : ℚ) (bricks : List Brick) (e : ReactionEvent)
    (hexp : e.timer - dt ≤ 0) (hdead : targetDead bricks e) :
    ResolveReactionEvents dt [e] bricks = ([], bricks, 0) := by
  rw [ResolveReactionEvents, tickTimers]
  simp only [List.map_cons, List.map_nil]
  rw [resolveLoop, if_pos hexp]
  have happ : applyEvent bricks { e with timer := e.timer - dt } = (bricks, 0) :=
    applyEvent_dead bricks _ hdead
  rw [happ]
  rfl

/-! ### Claims -/

/-- C1: the claim says Melt leaves the brick active ("no destruction"), and
the in-game help text agrees ("Thaws the brick back to yellow") — but the
code computes `meltTriggered` without ever reading it, so after the melt
assignments set `hitPoints = 1` the default branch (main.cpp lines 775-784)
decrements it to 0 and destroys the brick.  At the failing input — a red
ball with no pending flags striking a standard frozen brick — the struck
brick ends inactive and the contact counts one broken brick. -/
theorem C1_melt_destroys_brick :
    HandleBrickContact (Ball.mk 0 false false false false 0 (0, 0) (0, 0))
      [Brick.mk true 0 0 (-1) 1 false true] 0 []
      = ContactResult.mk (Ball.mk 0 false false false false 0 (0, 0) (0, 0))
          [Brick.mk false 0 0 (-1) 0 false false] [] 1 := by
  rfl

/-- C2 counterexample: on a Vaporize contact (blue ball, red brick) with the
ball overloaded, the code DOES schedule an AreaExplosion event — the claim
that no AreaExplosion is scheduled on that contact is false. -/
theorem C2_counterexample :
    (HandleBrickContact (Ball.mk 1 true false false false 0 (0, 0) (0, 0))
      [Brick.mk true 0 0 0 2 false false] 0 []).events
      = [ReactionEvent.mk 0 0 OverloadAoEDelay ReactionKind.OverloadAoE] := by
  rfl

/-- C2 (amended): on a brick contact where Vaporize applies (ball Blue,
brick Red) and the ball carries `overloaded`, the brick is instantly
destroyed AND an AreaExplosion deferred event centred on the struck cell is
scheduled, with `overloaded` cleared: the overload latch (main.cpp lines
716-717 and 796-805) is checked independently of the Vaporize branch, so the
two effects are additive, not first-wins-exclusive. -/
theorem C2_vaporize_with_overload
    (ball : Ball) (bricks : List Brick) (i : Nat) (events : List ReactionEvent)
    {brick0 : Brick} (hbi : bricks[i]? = some brick0)
    (hact : brick0.active = true)
    (hball : ball.colorIndex = ColorIndexBlue) (hbrick : brick0.colorIndex = ColorIndexRed)
    (hfz : ball.freezeReady = false) (hov : ball.overloaded = true)
    (hfr : brick0.frozen = false) :
    HandleBrickContact ball bricks i events =
      ⟨{ ball with overloaded := false }, bricks.set i (DestroyBrick brick0),
        events ++ [ReactionEvent.mk brick0.row brick0.col OverloadAoEDelay
          ReactionKind.OverloadAoE],
        1⟩ :=
  HandleBrickContact_vaporize_overload ball bricks i events hbi hact hball hbrick hfz hov hfr

theorem C2_vaporize_with_overload_witness :
    ([Brick.mk true 2 3 0 2 false false] : List Brick)[0]? = some (Brick.mk true 2 3 0 2 false false) ∧
    HandleBrickContact (Ball.mk 1 true false false false 0 (0, 0) (0, 0))
        [Brick.mk true 2 3 0 2 false false] 0 []
      = ⟨{ Ball.mk 1 true false false false 0 (0, 0) (0, 0) with overloaded := false },
          [Brick.mk true 2 3 0 2 false false].set 0 (DestroyBrick (Brick.mk true 2 3 0 2 false false)),
          [] ++ [ReactionEvent.mk 2 3 OverloadAoEDelay ReactionKind.OverloadAoE], 1⟩ :=
  ⟨rfl, C2_vaporize_with_overload _ _ 0 [] rfl rfl rfl rfl rfl rfl rfl⟩

/-- C3: the freeze flood fill (rule 1).  First conjunct: for a field with
unique cells and a non-None target element, `FreezeConnectedBricks` rewrites
exactly the bricks whose cell is 4-connected-reachable from the struck cell
through in-bounds active bricks of the struck element (`FillPost` with the
`Reach` relation: the traversal never crosses an out-of-bounds, empty,
inactive, or differently-coloured cell), applying `freezeBrick` to each.
Second conjunct: `freezeBrick` sets element None, hitPoints 1, frozen,
uncracked on every visited brick.  Third conjunct: any brick contact made
with `freezeReady` armed clears the flag — with no assumption on the struck
brick's element, so also when it is None. -/
theorem C3_freeze_flood_fill (bricks : List Brick) (hnd : CellsNodup bricks)
    (startRow startCol targetColorIndex : Int) (htarget : 0 ≤ targetColorIndex) :
    FillPost (fun b => b.active && b.colorIndex == targetColorIndex) freezeBrick bricks
      [(startRow, startCol)]
      (FreezeConnectedBricks bricks startRow startCol targetColorIndex).1
    ∧ (∀ b : Brick, (freezeBrick b).colorIndex = -1 ∧ (freezeBrick b).hitPoints = 1 ∧
        (freezeBrick b).frozen = true ∧ (freezeBrick b).cracked = false ∧
        (freezeBrick b).active = b.active)
    ∧ (∀ (ball : Ball) (bricksA : List Brick) (i : Nat) (events : List ReactionEvent)
        (brick0 : Brick), bricksA[i]? = some brick0 → brick0.active = true →
        ball.freezeReady = true →
        (HandleBrickContact ball bricksA i events).ball.freezeReady = false) := by
  refine ⟨FreezeConnectedBricks_post bricks hnd startRow startCol targetColorIndex
    (by omega), ?_, ?_⟩
  · intro b
    exact ⟨rfl, rfl, rfl, rfl, rfl⟩
  · intro ball bricksA i events brick0 hbi hact hfzr
    exact HandleBrickContact_clears_freezeReady ball bricksA i events hbi hact hfzr

theorem C3_freeze_flood_fill_witness :
    CellsNodup [Brick.mk true 0 0 2 2 false false, Brick.mk true 0 1 2 2 false false,
      Brick.mk true 0 2 2 2 false false] ∧ (0 : Int) ≤ 2 ∧
    FillPost (fun b => b.active && b.colorIndex == 2) freezeBrick
      [Brick.mk true 0 0 2 2 false false, Brick.mk true 0 1 2 2 false false,
        Brick.mk true 0 2 2 2 false false] [((0 : Int), (1 : Int))]
      (FreezeConnectedBricks
        [Brick.mk true 0 0 2 2 false false, Brick.mk true 0 1 2 2 false false,
          Brick.mk true 0 2 2 2 false false] 0 1 2).1 :=
  ⟨by unfold CellsNodup; decide, by decide,
    (C3_freeze_flood_fill _ (by unfold CellsNodup; decide) 0 1 2 (by decide)).1⟩

/-- C4: a Surge contact ({ball Purple, brick Blue} or {ball Blue, brick
Purple}) instantly destroys the struck brick and appends the surge events
computed on the post-destruction field.  Those events are exactly the four
diagonal rays (direction table `{1,1},{-1,-1},{1,-1},{-1,1}`); on each ray,
every event sits at some step `k ≥ 1` on an in-bounds cell holding an active
brick with timer `SurgeChainStepDelay * k` (soundness), every in-reach
occupied active cell at step `k` yields its event (completeness), and the
timers along each ray are strictly increasing with ray distance. -/
theorem C4_surge_chain
    (ball : Ball) (bricks : List Brick) (i : Nat) (events : List ReactionEvent)
    {brick0 : Brick} (hbi : bricks[i]? = some brick0) (hact : brick0.active = true)
    (hsurge : (ball.colorIndex = ColorIndexPurple ∧ brick0.colorIndex = ColorIndexBlue) ∨
      (ball.colorIndex = ColorIndexBlue ∧ brick0.colorIndex = ColorIndexPurple))
    (hfz : ball.freezeReady = false) (hov : ball.overloaded = false)
    (hfr : brick0.frozen = false) :
    (HandleBrickContact ball bricks i events =
      ⟨ball, bricks.set i (DestroyBrick brick0),
        events ++ SurgeEvents (bricks.set i (DestroyBrick brick0)) brick0.row brick0.col,
        1⟩) ∧
    (∀ (bricksD : List Brick) (r c : Int),
      SurgeEvents bricksD r c
        = surgeRay bricksD 1 1 (r + 1) (c + 1) 1 7 ++
          surgeRay bricksD (-1) (-1) (r - 1) (c - 1) 1 7 ++
          surgeRay bricksD 1 (-1) (r + 1) (c - 1) 1 7 ++
          surgeRay bricksD (-1) 1 (r - 1) (c + 1) 1 7) ∧
    (∀ (bricksD : List Brick) (r c dR dC : Int),
      ((dR, dC) : Cell) ∈ ([(1, 1), (-1, -1), (1, -1), (-1, 1)] : List Cell) →
      (∀ e ∈ surgeRay bricksD dR dC (r + dR) (c + dC) 1 7,
        ∃ k : Nat, 1 ≤ k ∧ e.row = r + (k : Int) * dR ∧ e.col = c + (k : Int) * dC ∧
          e.timer = SurgeChainStepDelay * (k : ℚ) ∧ e.kind = ReactionKind.SurgeChain ∧
          inBounds (e.row, e.col) = true ∧
          ∃ b, brickAt? bricksD (e.row, e.col) = some b ∧ b.active = true) ∧
      (∀ k : Nat, 1 ≤ k →
        (∀ k' : Nat, 1 ≤ k' → k' ≤ k →
          inBounds (r + (k' : Int) * dR, c + (k' : Int) * dC) = true) →
        ∀ b, brickAt? bricksD (r + (k : Int) * dR, c + (k : Int) * dC) = some b →
          b.active = true →
          ReactionEvent.mk (r + (k : Int) * dR) (c + (k : Int) * dC)
            (SurgeChainStepDelay * (k : ℚ)) ReactionKind.SurgeChain
            ∈ surgeRay bricksD dR dC (r + dR) (c + dC) 1 7) ∧
      (surgeRay bricksD dR dC (r + dR) (c + dC) 1 7).Pairwise
        (fun a b => a.timer < b.timer)) := by
  refine ⟨HandleBrickContact_surge ball bricks i events hbi hact hsurge hfz hov hfr,
    fun _ _ _ => rfl, ?_⟩
  intro bricksD r c dR dC hmem
  refine ⟨?_, ?_, surgeRay_timer_sorted bricksD dR dC (r + dR) (c + dC) 1 7⟩
  · intro e he
    obtain ⟨j, hj, hrow, hcol, htimer, hkind, hbnd, hbrick⟩ :=
      surgeRay_sound bricksD dR dC (r + dR) (c + dC) 1 7 e he
    refine ⟨j + 1, by omega, ?_, ?_, ?_, hkind, hbnd, hbrick⟩
    · rw [hrow]; push_cast; ring
    · rw [hcol]; push_cast; ring
    · rw [htimer]; push_cast; ring
  · intro k hk hchain b hfind hactb
    have hdR : dR = 1 ∨ dR = -1 := by
      simp only [List.mem_cons, List.mem_singleton, Prod.mk.injEq,
        List.not_mem_nil, or_false] at hmem
      rcases hmem with ⟨h1, _⟩ | ⟨h1, _⟩ | ⟨h1, _⟩ | ⟨h1, _⟩ <;> omega
    exact surgeRay_complete_from_start bricksD dR dC hdR r c k hk hchain b hfind hactb

theorem C4_surge_chain_witness :
    ([Brick.mk true 2 2 1 2 false false, Brick.mk true 3 3 0 2 false false] : List Brick)[0]?
      = some (Brick.mk true 2 2 1 2 false false) ∧
    HandleBrickContact (Ball.mk 3 false false false false 0 (0, 0) (0, 0))
        [Brick.mk true 2 2 1 2 false false, Brick.mk true 3 3 0 2 false false] 0 []
      = ⟨Ball.mk 3 false false false false 0 (0, 0) (0, 0),
          [Brick.mk true 2 2 1 2 false false, Brick.mk true 3 3 0 2 false false].set 0
            (DestroyBrick (Brick.mk true 2 2 1 2 false false)),
          [] ++ SurgeEvents
            ([Brick.mk true 2 2 1 2 false false, Brick.mk true 3 3 0 2 false false].set 0
              (DestroyBrick (Brick.mk true 2 2 1 2 false false))) 2 2,
          1⟩ :=
  ⟨rfl, (C4_surge_chain _ _ 0 [] rfl rfl (Or.inl ⟨rfl, rfl⟩) rfl rfl rfl).1⟩

/-- C5: applying an AreaExplosion centred on `(r, c)` destroys exactly the
active bricks whose grid coordinates are within Chebyshev distance 1 of the
centre (any element, frozen or not — `DestroyBrick` zeroes them), and every
other brick of the field is returned unchanged at its position. -/
theorem C5_area_explosion (bricks : List Brick) (r c : Int) :
    ∀ (i : Nat) (b : Brick), bricks[i]? = some b →
      ((b.active = true ∧ (b.row - r).natAbs ≤ 1 ∧ (b.col - c).natAbs ≤ 1) →
        (ApplyOverloadedAoE bricks r c).1[i]? = some (DestroyBrick b) ∧
          (DestroyBrick b).active = false) ∧
      (¬ (b.active = true ∧ (b.row - r).natAbs ≤ 1 ∧ (b.col - c).natAbs ≤ 1) →
        (ApplyOverloadedAoE bricks r c).1[i]? = some b) := by
  intro i b hib
  have hspec := (ApplyOverloadedAoE_spec bricks r c).2 i b hib
  constructor
  · intro hcond
    rw [hspec, if_pos hcond]
    exact ⟨rfl, rfl⟩
  · intro hcond
    rw [hspec, if_neg hcond]

theorem C5_area_explosion_witness :
    ([Brick.mk true 3 3 0 2 false false, Brick.mk true 6 6 1 2 false false] : List Brick)[0]?
        = some (Brick.mk true 3 3 0 2 false false) ∧
    (Brick.mk true 3 3 0 2 false false).active = true ∧
      ((Brick.mk true 3 3 0 2 false false).row - 3).natAbs ≤ 1 ∧
      ((Brick.mk true 3 3 0 2 false false).col - 4).natAbs ≤ 1 ∧
    ((ApplyOverloadedAoE [Brick.mk true 3 3 0 2 false false,
        Brick.mk true 6 6 1 2 false false] 3 4).1[0]?
      = some (DestroyBrick (Brick.mk true 3 3 0 2 false false)) ∧
      (DestroyBrick (Brick.mk true 3 3 0 2 false false)).active = false) :=
  ⟨rfl, rfl, by decide, by decide,
    (C5_area_explosion [Brick.mk true 3 3 0 2 false false,
      Brick.mk true 6 6 1 2 false false] 3 4 0 _ rfl).1 ⟨rfl, by decide, by decide⟩⟩

/-- C8: resolving an expired ReactionEvent whose target is already dead — a
ChainStep whose cell holds no active brick, or an AreaExplosion whose whole
3-by-3 block holds no active brick — leaves the field unchanged, contributes
0 to the removed-brick count (so the score is unchanged), and still removes
the event from the pending list. -/
theorem C8_dead_event_noop (dt : ℚ) (bricks : List Brick) (e : ReactionEvent)
    (hexp : e.timer - dt ≤ 0) (hdead : targetDead bricks e) :
    ResolveReactionEvents dt [e] bricks = ([], bricks, 0) :=
  ResolveReactionEvents_dead dt bricks e hexp hdead

theorem C8_dead_event_noop_witness :
    (ReactionEvent.mk 5 5 0 ReactionKind.OverloadAoE).timer - 1 ≤ 0 ∧
    targetDead [Brick.mk true 0 0 0 2 false false]
      (ReactionEvent.mk 5 5 0 ReactionKind.OverloadAoE) ∧
    ResolveReactionEvents 1 [ReactionEvent.mk 5 5 0 ReactionKind.OverloadAoE]
        [Brick.mk true 0 0 0 2 false false]
      = ([], [Brick.mk true 0 0 0 2 false false], 0) :=
  ⟨by norm_num, fun b hb => by rcases List.mem_singleton.mp hb with rfl; decide,
    C8_dead_event_noop 1 _ _ (by norm_num)
      (fun b hb => by rcases List.mem_singleton.mp hb with rfl; decide)⟩

/-- C9: when the active-brick count reaches zero the main loop regenerates
the field and clears the pending event list in the same step, so every still
pending deferred event is discarded unresolved, and a subsequent event
resolution pass destroys nothing of the fresh field. -/
theorem C9_wave_clear_discards_events (bricks newField : List Brick)
    (events : List ReactionEvent) (dt : ℚ) (h : CountActiveBricks bricks = 0) :
    waveClearStep bricks newField events = (newField, []) ∧
    ResolveReactionEvents dt (waveClearStep bricks newField events).2
      (waveClearStep bricks newField events).1 = ([], newField, 0) := by
  have h1 : waveClearStep bricks newField events = (newField, []) := by
    rw [waveClearStep, if_pos h]
  refine ⟨h1, ?_⟩
  rw [h1]
  rfl

theorem C9_wave_clear_discards_events_witness :
    CountActiveBricks [Brick.mk false 0 0 (-1) 0 false false] = 0 ∧
    (waveClearStep [Brick.mk false 0 0 (-1) 0 false false]
        [Brick.mk true 0 0 2 2 false false]
        [ReactionEvent.mk 0 0 OverloadAoEDelay ReactionKind.OverloadAoE]
      = ([Brick.mk true 0 0 2 2 false false], []) ∧
    ResolveReactionEvents 1
        (waveClearStep [Brick.mk false 0 0 (-1) 0 false false]
          [Brick.mk true 0 0 2 2 false false]
          [ReactionEvent.mk 0 0 OverloadAoEDelay ReactionKind.OverloadAoE]).2
        (waveClearStep [Brick.mk false 0 0 (-1) 0 false false]
          [Brick.mk true 0 0 2 2 false false]
          [ReactionEvent.mk 0 0 OverloadAoEDelay ReactionKind.OverloadAoE]).1
      = ([], [Brick.mk true 0 0 2 2 false false], 0)) :=
  ⟨rfl, C9_wave_clear_discards_events _ _ _ 1 rfl⟩

/-- C6: for every brick, `active = false → hitPoints = 0 ∧ frozen = false`
(`BrickInv`) is established by `DestroyBrick` and preserved by every mutating
operation of the core: the freeze flood fill, the infuse flood fill, the
shatter chain, the whole brick-contact handler (which performs destruction,
melt, liquefy, infuse recolor, and the default hit), and deferred-event
resolution (area explosions and chain steps). -/
theorem C6_brick_invariant (bricks : List Brick) (r c t ci : Int) (ball : Ball)
    (i : Nat) (events : List ReactionEvent) (dt : ℚ)
    (h : ∀ b ∈ bricks, BrickInv b) :
    (∀ b : Brick, BrickInv (DestroyBrick b)) ∧
    (∀ b ∈ (FreezeConnectedBricks bricks r c t).1, BrickInv b) ∧
    (∀ b ∈ (InfuseAdjacentBricks bricks r c ci).1, BrickInv b) ∧
    (∀ b ∈ (ShatterFrozenNeighbors bricks r c).1, BrickInv b) ∧
    (∀ b ∈ (HandleBrickContact ball bricks i events).bricks, BrickInv b) ∧
    (∀ b ∈ (ResolveReactionEvents dt events bricks).2.1, BrickInv b) :=
  ⟨BrickInv_destroy,
   FreezeConnectedBricks_inv bricks r c t h,
   InfuseAdjacentBricks_inv bricks r c ci h,
   ShatterFrozenNeighbors_inv bricks r c h,
   HandleBrickContact_inv ball bricks i events h,
   ResolveReactionEvents_inv dt events bricks h⟩

theorem C6_brick_invariant_witness :
    (∀ b ∈ ([Brick.mk true 0 0 2 2 false false, Brick.mk false 0 1 (-1) 0 false false] :
        List Brick), BrickInv b) ∧
    ∀ b : Brick, BrickInv (DestroyBrick b) := by
  have hinv : ∀ b ∈ ([Brick.mk true 0 0 2 2 false false,
      Brick.mk false 0 1 (-1) 0 false false] : List Brick), BrickInv b := by
    intro b hb
    rcases List.mem_cons.mp hb with rfl | hb
    · intro hh; cases hh
    · rcases List.mem_cons.mp hb with rfl | hb
      · intro _; exact ⟨rfl, rfl⟩
      · cases hb
  exact ⟨hinv, (C6_brick_invariant [Brick.mk true 0 0 2 2 false false,
    Brick.mk false 0 1 (-1) 0 false false] 0 0 2 1
    (Ball.mk 1 false false false false 0 (0, 0) (0, 0)) 0 [] 1 hinv).1⟩

/-- C7: on a paddle bounce the ball's element becomes the paddle's current
element, and the three trigger flags are set exactly by the element-pair
table — `overloaded` iff {Purple, Red} (old ball element vs paddle element,
either order), `superconduct` iff {Purple, LightBlue}, `freezeReady` iff
{Blue, LightBlue}; since those unordered pairs are pairwise disjoint, at most
one flag is armed, and `freezeReady` comes with the frozen state and the
stored pre-freeze bounce velocity. -/
theorem C7_paddle_bounce (ball : Ball) (paddleColorIndex : Int) (newVel : ℚ × ℚ)
    (hrange : 0 ≤ paddleColorIndex ∧ paddleColorIndex < BrickPaletteCount) :
    (HandleBallPaddleFlags ball paddleColorIndex newVel).colorIndex = paddleColorIndex ∧
    ((HandleBallPaddleFlags ball paddleColorIndex newVel).overloaded = true ↔
      ((ball.colorIndex = ColorIndexPurple ∧ paddleColorIndex = ColorIndexRed) ∨
       (ball.colorIndex = ColorIndexRed ∧ paddleColorIndex = ColorIndexPurple))) ∧
    ((HandleBallPaddleFlags ball paddleColorIndex newVel).superconduct = true ↔
      ((ball.colorIndex = ColorIndexPurple ∧ paddleColorIndex = ColorIndexLightBlue) ∨
       (ball.colorIndex = ColorIndexLightBlue ∧ paddleColorIndex = ColorIndexPurple))) ∧
    ((HandleBallPaddleFlags ball paddleColorIndex newVel).freezeReady = true ↔
      ((ball.colorIndex = ColorIndexBlue ∧ paddleColorIndex = ColorIndexLightBlue) ∨
       (ball.colorIndex = ColorIndexLightBlue ∧ paddleColorIndex = ColorIndexBlue))) ∧
    (¬ ((HandleBallPaddleFlags ball paddleColorIndex newVel).overloaded = true ∧
        (HandleBallPaddleFlags ball paddleColorIndex newVel).superconduct = true)) ∧
    (¬ ((HandleBallPaddleFlags ball paddleColorIndex newVel).overloaded = true ∧
        (HandleBallPaddleFlags ball paddleColorIndex newVel).freezeReady = true)) ∧
    (¬ ((HandleBallPaddleFlags ball paddleColorIndex newVel).superconduct = true ∧
        (HandleBallPaddleFlags ball paddleColorIndex newVel).freezeReady = true)) ∧
    ((HandleBallPaddleFlags ball paddleColorIndex newVel).freezeReady = true →
      (HandleBallPaddleFlags ball paddleColorIndex newVel).frozen = true ∧
      (HandleBallPaddleFlags ball paddleColorIndex newVel).storedVelocity = newVel) := by
  by_cases hf : (ball.colorIndex = ColorIndexBlue ∧ paddleColorIndex = ColorIndexLightBlue) ∨
      (ball.colorIndex = ColorIndexLightBlue ∧ paddleColorIndex = ColorIndexBlue)
  · have hform : HandleBallPaddleFlags ball paddleColorIndex newVel = { ball with
        colorIndex := paddleColorIndex, velocity := (0, 0),
        overloaded := decide
          ((ball.colorIndex = ColorIndexPurple ∧ paddleColorIndex = ColorIndexRed) ∨
           (ball.colorIndex = ColorIndexRed ∧ paddleColorIndex = ColorIndexPurple)),
        superconduct := decide
          ((ball.colorIndex = ColorIndexPurple ∧ paddleColorIndex = ColorIndexLightBlue) ∨
           (ball.colorIndex = ColorIndexLightBlue ∧ paddleColorIndex = ColorIndexPurple)),
        freezeReady := true, frozen := true, freezeTimer := 2,
        storedVelocity := newVel } := by
      rw [HandleBallPaddleFlags, if_pos hrange, if_pos hf]
    have hovl : (HandleBallPaddleFlags ball paddleColorIndex newVel).overloaded
        = decide ((ball.colorIndex = ColorIndexPurple ∧ paddleColorIndex = ColorIndexRed) ∨
           (ball.colorIndex = ColorIndexRed ∧ paddleColorIndex = ColorIndexPurple)) := by
      rw [hform]
    have hsup : (HandleBallPaddleFlags ball paddleColorIndex newVel).superconduct
        = decide ((ball.colorIndex = ColorIndexPurple ∧ paddleColorIndex = ColorIndexLightBlue) ∨
           (ball.colorIndex = ColorIndexLightBlue ∧ paddleColorIndex = ColorIndexPurple)) := by
      rw [hform]
    have hfzr : (HandleBallPaddleFlags ball paddleColorIndex newVel).freezeReady = true := by
      rw [hform]
    refine ⟨by rw [hform], ?_, ?_, ?_, ?_, ?_, ?_, ?_⟩
    · rw [hovl]; exact decide_eq_true_iff
    · rw [hsup]; exact decide_eq_true_iff
    · rw [hfzr]; exact ⟨fun _ => hf, fun _ => rfl⟩
    · rintro ⟨h1, h2⟩
      rw [hovl, decide_eq_true_eq] at h1
      rw [hsup, decide_eq_true_eq] at h2
      rcases h1 with ⟨ha, hb⟩ | ⟨ha, hb⟩ <;> rcases h2 with ⟨hc, hd⟩ | ⟨hc, hd⟩ <;>
        simp only [ColorIndexPurple, ColorIndexRed, ColorIndexLightBlue] at ha hb hc hd <;>
        omega
    · rintro ⟨h1, _⟩
      rw [hovl, decide_eq_true_eq] at h1
      rcases h1 with ⟨ha, hb⟩ | ⟨ha, hb⟩ <;> rcases hf with ⟨hc, hd⟩ | ⟨hc, hd⟩ <;>
        simp only [ColorIndexPurple, ColorIndexRed, ColorIndexLightBlue, ColorIndexBlue]
          at ha hb hc hd <;> omega
    · rintro ⟨h1, _⟩
      rw [hsup, decide_eq_true_eq] at h1
      rcases h1 with ⟨ha, hb⟩ | ⟨ha, hb⟩ <;> rcases hf with ⟨hc, hd⟩ | ⟨hc, hd⟩ <;>
        simp only [ColorIndexPurple, ColorIndexRed, ColorIndexLightBlue, ColorIndexBlue]
          at ha hb hc hd <;> omega
    · intro _
      exact ⟨by rw [hform], by rw [hform]⟩
  · have hform : HandleBallPaddleFlags ball paddleColorIndex newVel = { ball with
        colorIndex := paddleColorIndex, velocity := newVel,
        overloaded := decide
          ((ball.colorIndex = ColorIndexPurple ∧ paddleColorIndex = ColorIndexRed) ∨
           (ball.colorIndex = ColorIndexRed ∧ paddleColorIndex = ColorIndexPurple)),
        superconduct := decide
          ((ball.colorIndex = ColorIndexPurple ∧ paddleColorIndex = ColorIndexLightBlue) ∨
           (ball.colorIndex = ColorIndexLightBlue ∧ paddleColorIndex = ColorIndexPurple)),
        freezeReady := false, frozen := false, freezeTimer := 0,
        storedVelocity := (0, 0) } := by
      rw [HandleBallPaddleFlags, if_pos hrange, if_neg hf]
    have hovl : (HandleBallPaddleFlags ball paddleColorIndex newVel).overloaded
        = decide ((ball.colorIndex = ColorIndexPurple ∧ paddleColorIndex = ColorIndexRed) ∨
           (ball.colorIndex = ColorIndexRed ∧ paddleColorIndex = ColorIndexPurple)) := by
      rw [hform]
    have hsup : (HandleBallPaddleFlags ball paddleColorIndex newVel).superconduct
        = decide ((ball.colorIndex = ColorIndexPurple ∧ paddleColorIndex = ColorIndexLightBlue) ∨
           (ball.colorIndex = ColorIndexLightBlue ∧ paddleColorIndex = ColorIndexPurple)) := by
      rw [hform]
    have hfzr : (HandleBallPaddleFlags ball paddleColorIndex newVel).freezeReady = false := by
      rw [hform]
    refine ⟨by rw [hform], ?_, ?_, ?_, ?_, ?_, ?_, ?_⟩
    · rw [hovl]; exact decide_eq_true_iff
    · rw [hsup]; exact decide_eq_true_iff
    · rw [hfzr]
      constructor
      · intro hcontra; cases hcontra
      · intro hcontra; exact absurd hcontra hf
    · rintro ⟨h1, h2⟩
      rw [hovl, decide_eq_true_eq] at h1
      rw [hsup, decide_eq_true_eq] at h2
      rcases h1 with ⟨ha, hb⟩ | ⟨ha, hb⟩ <;> rcases h2 with ⟨hc, hd⟩ | ⟨hc, hd⟩ <;>
        simp only [ColorIndexPurple, ColorIndexRed, ColorIndexLightBlue] at ha hb hc hd <;>
        omega
    · rintro ⟨_, h2⟩
      rw [hfzr] at h2
      cases h2
    · rintro ⟨_, h2⟩
      rw [hfzr] at h2
      cases h2
    · intro hcontra
      rw [hfzr] at hcontra
      cases hcontra

theorem C7_paddle_bounce_witness :
    ((0 : Int) ≤ 3 ∧ (3 : Int) < BrickPaletteCount) ∧
    (HandleBallPaddleFlags (Ball.mk 0 false false false false 0 (0, 0) (0, 0)) 3
      ((1 : ℚ), (2 : ℚ))).colorIndex = 3 :=
  ⟨⟨by decide, by norm_num [BrickPaletteCount]⟩,
    (C7_paddle_bounce (Ball.mk 0 false false false false 0 (0, 0) (0, 0)) 3 (1, 2)
      ⟨by decide, by norm_num [BrickPaletteCount]⟩).1⟩

/-- C10: the Infuse rule fires even for an element-less ball (colorIndex
`-1`): a neutral ball striking a Green brick recolors the entire 4-connected
Green cluster — the struck brick included — to element None, raising each
converted brick's hitPoints to at least 2 and clearing `cracked` and
`frozen`, destroying nothing; the cluster becomes neutral instead of staying
Green.  First conjunct: the contact outcome; second: the exact cluster
characterization of the infuse fill; third: the struck brick's new state;
fourth: the per-brick effect bounds. -/
theorem C10_neutral_ball_infuse
    (ball : Ball) (bricks : List Brick) (i : Nat) (events : List ReactionEvent)
    {brick0 : Brick} (hnd : CellsNodup bricks) (hbi : bricks[i]? = some brick0)
    (hact : brick0.active = true) (hball : ball.colorIndex = -1)
    (hbrick : brick0.colorIndex = ColorIndexGreen)
    (hfz : ball.freezeReady = false) (hov : ball.overloaded = false)
    (hbnd : inBounds brick0.cell = true) :
    HandleBrickContact ball bricks i events =
      ⟨ball, (InfuseAdjacentBricks bricks brick0.row brick0.col (-1)).1, events, 0⟩ ∧
    FillPost (fun b => b.active && b.colorIndex == ColorIndexGreen) (infuseBrick (-1))
      bricks [(brick0.row, brick0.col)]
      (InfuseAdjacentBricks bricks brick0.row brick0.col (-1)).1 ∧
    (InfuseAdjacentBricks bricks brick0.row brick0.col (-1)).1[i]?
      = some (infuseBrick (-1) brick0) ∧
    (∀ b : Brick, (infuseBrick (-1) b).colorIndex = -1 ∧
      2 ≤ (infuseBrick (-1) b).hitPoints ∧ (infuseBrick (-1) b).cracked = false ∧
      (infuseBrick (-1) b).frozen = false ∧ (infuseBrick (-1) b).active = b.active) := by
  have hmain := HandleBrickContact_infuse_neutral ball bricks i events hnd hbi hact hball
    hbrick hfz hov hbnd
  rw [hball] at hmain
  refine ⟨hmain, InfuseAdjacentBricks_post bricks hnd brick0.row brick0.col (-1), ?_, ?_⟩
  · refine ((InfuseAdjacentBricks_post bricks hnd brick0.row brick0.col (-1)) i brick0
      hbi).1 ⟨Reach.base ?_, hbnd, by simp [hact, hbrick]⟩
    simp [Brick.cell]
  · intro b
    refine ⟨rfl, ?_, rfl, rfl, rfl⟩
    exact le_max_right b.hitPoints 2

theorem C10_neutral_ball_infuse_witness :
    CellsNodup [Brick.mk true 0 0 2 1 true false, Brick.mk true 0 1 2 2 false false,
      Brick.mk true 0 2 2 2 false false] ∧
    ([Brick.mk true 0 0 2 1 true false, Brick.mk true 0 1 2 2 false false,
      Brick.mk true 0 2 2 2 false false] : List Brick)[1]?
        = some (Brick.mk true 0 1 2 2 false false) ∧
    inBounds (Brick.mk true 0 1 2 2 false false).cell = true ∧
    HandleBrickContact (Ball.mk (-1) false false false false 0 (0, 0) (0, 0))
        [Brick.mk true 0 0 2 1 true false, Brick.mk true 0 1 2 2 false false,
          Brick.mk true 0 2 2 2 false false] 1 []
      = ⟨Ball.mk (-1) false false false false 0 (0, 0) (0, 0),
          (InfuseAdjacentBricks [Brick.mk true 0 0 2 1 true false,
            Brick.mk true 0 1 2 2 false false, Brick.mk true 0 2 2 2 false false]
            0 1 (-1)).1, [], 0⟩ :=
  ⟨by unfold CellsNodup; decide, rfl, by decide,
    (C10_neutral_ball_infuse _ _ 1 [] (by unfold CellsNodup; decide) rfl rfl rfl rfl rfl rfl
      (by decide)).1⟩

end ElementalPong
